import Mathlib

/-!
Verification of the blog_system collaborative editing backend
(`internal/service/service.go` and friends) against its specification.

The embedding models the metadata store (DB), the blob store (S3), the
best-effort cache and the in-memory snapshot counters as explicit state,
and translates the service-layer operations (`ApplyItemChanges`,
`handleSnapshotting`, `DeleteItem`, `RevertToAction`, `GetItemContent`,
`GetHistory`, `RegisterUser`, `LoginUser`) as state-passing functions.
Every operation additionally returns a trace of store/cache accesses so
that ordering and no-access properties can be stated.

Go `int` values (versions, counters) are modelled as `Int`; overflow is
irrelevant to the verified properties.  Time is an abstract `Int`
parameter `now`.  Store faults that the claims depend on (blob upload
failure, blob download failure) are modelled by fault sets inside the
blob-store state; cache operations themselves always succeed (their Go
counterparts are best-effort and their failures only widen the set of
reachable cache states, which the theorems quantify over anyway).
-/

namespace BlogSystem

/-- Association-list lookup, used to model every keyed store. -/
def lookupA {κ α : Type} [DecidableEq κ] (l : List (κ × α)) (k : κ) : Option α :=
  match l with
  | [] => none
  | p :: rest => if p.1 = k then some p.2 else lookupA rest k

/-- Association-list insert/overwrite. -/
def insertA {κ α : Type} [DecidableEq κ] (l : List (κ × α)) (k : κ) (v : α) :
    List (κ × α) :=
  (k, v) :: l.filter (fun p => ¬ p.1 = k)

/-- Association-list erase. -/
def eraseA {κ α : Type} [DecidableEq κ] (l : List (κ × α)) (k : κ) : List (κ × α) :=
  l.filter (fun p => ¬ p.1 = k)

/-- Lookup with a default value (models Go map access returning the zero value). -/
def lookupD {κ α : Type} [DecidableEq κ] (l : List (κ × α)) (k : κ) (d : α) : α :=
  (lookupA l k).getD d

-- ---------------------------------------------------------------------------
-- Data model (internal/models)
-- ---------------------------------------------------------------------------

/-- A single incremental edit (`models.Change`).  Fields are Go ints. -/
structure Change where
  line : Int
  column : Int
  text : String
  removed : Int
  deriving DecidableEq, Repr

/-- A user record (`models.User`). -/
structure User where
  id : String
  username : String
  passwordHash : String
  createdAt : Int
  deriving DecidableEq, Repr

/-- The metadata fields shared by `models.Post` and `models.CodeFile` that the
service-layer logic reads or writes.  The two Go structs have identical
lifecycle fields (`ID`, `UserID`, `S3Path`, `Version`, timestamps); the
type-specific presentation fields (title/slug, filename/language) are never
consulted by the verified operations and are omitted. -/
structure ItemMeta where
  id : String
  userID : String
  s3Path : String
  version : Int
  updatedAt : Int
  deriving DecidableEq, Repr

/-- A history log entry (`models.HistoryLog`).  `action` is one of the Go
string constants "create", "delete", "patch", "snapshot", "revert". -/
structure HistoryLog where
  userID : String
  itemID : String
  itemType : String
  action : String
  timestamp : Int
  changeData : Option Change
  s3PathBefore : String
  s3PathAfter : String
  itemVersion : Int
  revertedToLogID : Option String
  deriving DecidableEq, Repr

/-- `models.ItemType.IsValid`: only "post" and "codefile" are recognized. -/
def itemTypeIsValid (itemType : String) : Bool :=
  itemType == "post" || itemType == "codefile"

-- ---------------------------------------------------------------------------
-- Change applier (C1)
-- ---------------------------------------------------------------------------

/-- Split a codepoint sequence into lines on the newline character, Go
`strings.Split` style: the number of lines is one more than the number of
newlines, and a trailing newline produces a final empty line. -/
def splitLines : List Char → List (List Char)
  | [] => [[]]
  | c :: rest =>
    let ls := splitLines rest
    if c = '\n' then [] :: ls
    else
      match ls with
      | l :: ls2 => (c :: l) :: ls2
      | [] => [[c]]

/-- Codepoint offset of the start of line `ln` (each earlier line contributes
its length plus one for the newline). -/
def lineStartOffset (lines : List (List Char)) (ln : Nat) : Nat :=
  (lines.take ln).foldl (fun acc l => acc + l.length + 1) 0

/-- Modelled from the spec: apply one `Change` to a codepoint sequence.  The
implementation of the package-level Go helper `applyChanges` is not included
in the source snapshot; this follows section 4.1 of the specification: locate
the anchor at `(line, column)` counting codepoints (reject an anchor outside
the document), delete `removed` codepoints forward (reject a deletion running
past end of document), and insert `text` at the anchor. -/
def applyOneChange (text : List Char) (c : Change) : Option (List Char) :=
  if c.line < 0 || c.column < 0 || c.removed < 0 then none
  else
    let lines := splitLines text
    let ln := c.line.toNat
    let col := c.column.toNat
    let rem := c.removed.toNat
    match lines[ln]? with
    | none => none
    | some l =>
      if col > l.length then none
      else
        let start := lineStartOffset lines ln + col
        if start + rem > text.length then none
        else some (text.take start ++ c.text.data ++ text.drop (start + rem))

/-- Modelled from the spec: the change applier `apply(text, changes[])`,
standing in for the Go helper `applyChanges` whose body is elided from the
source snapshot.  Changes are applied in array order; the first failure
aborts the whole batch (`ApplyError`, modelled as `none`). -/
def applyChanges (text : String) (changes : List Change) : Option String :=
  match changes.foldlM applyOneChange text.data with
  | none => none
  | some cs => some (String.mk cs)

-- ---------------------------------------------------------------------------
-- Store states
-- ---------------------------------------------------------------------------

/-- Metadata store state (`database.DBAdapter` implementations).  Posts and
codefiles live in separate collections; history is an append-only list of
(generated id, entry) pairs; `nextLogID` feeds id generation. -/
structure DBState where
  users : List (String × User)
  posts : List (String × ItemMeta)
  codefiles : List (String × ItemMeta)
  history : List (String × HistoryLog)
  nextLogID : Nat
  deriving DecidableEq, Repr

/-- Errors surfaced by the metadata store (`database.ErrNotFound`,
`database.ErrVersionMismatch`, `database.ErrDuplicateUser`). -/
inductive DBErr
  | notFound
  | versionMismatch
  | duplicateUser
  deriving DecidableEq, Repr

/-- `GetPostMetaByID` / `GetCodeFileMetaByID`, dispatched on the item type the
way the service switches on it. -/
def DBState.getMeta (db : DBState) (itemType itemID : String) : Option ItemMeta :=
  if itemType == "post" then lookupA db.posts itemID
  else if itemType == "codefile" then lookupA db.codefiles itemID
  else none

/-- `UpdatePostMeta` / `UpdateCodeFileMeta`: compare-and-set on the version
field.  The store matches the row by id and by `meta.version`; on a match it
writes the passed fields, stamps `updatedAt`, and atomically increments the
stored version.  No match is reported as `versionMismatch` when the row
exists and as `notFound` otherwise (mongodb client, `UpdatePostMeta`). -/
def DBState.updateMeta (db : DBState) (itemType : String) (meta : ItemMeta)
    (now : Int) : Except DBErr DBState :=
  match db.getMeta itemType meta.id with
  | none => .error .notFound
  | some stored =>
    if stored.version = meta.version then
      let newMeta : ItemMeta :=
        { meta with version := meta.version + 1, updatedAt := now }
      if itemType == "post" then
        .ok { db with posts := insertA db.posts meta.id newMeta }
      else
        .ok { db with codefiles := insertA db.codefiles meta.id newMeta }
    else .error .versionMismatch

/-- `DeletePostMeta` / `DeleteCodeFileMeta`: delete by id, `notFound` when the
row is absent. -/
def DBState.deleteMeta (db : DBState) (itemType itemID : String) :
    Except DBErr DBState :=
  match db.getMeta itemType itemID with
  | none => .error .notFound
  | some _ =>
    if itemType == "post" then
      .ok { db with posts := eraseA db.posts itemID }
    else
      .ok { db with codefiles := eraseA db.codefiles itemID }

/-- `LogAction`: append a history entry under a generated id and return it. -/
def DBState.logAction (db : DBState) (entry : HistoryLog) : String × DBState :=
  let id := "log" ++ toString db.nextLogID
  (id, { db with history := db.history ++ [(id, entry)],
                 nextLogID := db.nextLogID + 1 })

/-- `CreateUser`: reject a duplicate username. -/
def DBState.createUser (db : DBState) (user : User) : Except DBErr DBState :=
  match lookupA db.users user.username with
  | some _ => .error .duplicateUser
  | none => .ok { db with users := insertA db.users user.username user }

/-- Blob store state (`storage.StorageAdapter`).  `files` maps keys to byte
content; `failPut` and `failGet` are the keys at which an upload or a
download fails with a transport error (as opposed to `ErrFileNotFound`,
which is modelled by absence from `files`). -/
structure BlobState where
  files : List (String × String)
  failPut : List String
  failGet : List String
  deriving DecidableEq, Repr

/-- `DownloadFile`: transport failure, content, or not-found. -/
inductive BlobGetResult
  | ok (content : String)
  | notFound
  | fail
  deriving DecidableEq, Repr

/-- Download the content stored under a key. -/
def BlobState.download (b : BlobState) (key : String) : BlobGetResult :=
  if key ∈ b.failGet then .fail
  else
    match lookupA b.files key with
    | some c => .ok c
    | none => .notFound

/-- `UploadFile`: store the content under the key, or fail. -/
def BlobState.upload (b : BlobState) (key content : String) :
    Option BlobState :=
  if key ∈ b.failPut then none
  else some { b with files := insertA b.files key content }

/-- `DeleteFile`. -/
def BlobState.deleteFile (b : BlobState) (key : String) : BlobState :=
  { b with files := eraseA b.files key }

/-- Cache state (`cache.Cache`).  Users are keyed by user id, item metadata by
(itemType, itemID), content by (itemType, itemID, version), mirroring the
redis key scheme. -/
structure CacheState where
  users : List (String × User)
  itemMeta : List ((String × String) × ItemMeta)
  itemContent : List ((String × String × Int) × String)
  deriving DecidableEq, Repr

/-- `GetItemMeta` on the cache. -/
def CacheState.getItemMeta (c : CacheState) (itemType itemID : String) :
    Option ItemMeta :=
  lookupA c.itemMeta (itemType, itemID)

/-- `SetItemMeta` on the cache. -/
def CacheState.setItemMeta (c : CacheState) (itemType itemID : String)
    (m : ItemMeta) : CacheState :=
  { c with itemMeta := insertA c.itemMeta (itemType, itemID) m }

/-- `DeleteItemMeta` on the cache. -/
def CacheState.deleteItemMeta (c : CacheState) (itemType itemID : String) :
    CacheState :=
  { c with itemMeta := eraseA c.itemMeta (itemType, itemID) }

/-- `GetItemContent` on the cache. -/
def CacheState.getItemContent (c : CacheState) (itemType itemID : String)
    (version : Int) : Option String :=
  lookupA c.itemContent (itemType, itemID, version)

/-- `SetItemContent` on the cache. -/
def CacheState.setItemContent (c : CacheState) (itemType itemID : String)
    (version : Int) (content : String) : CacheState :=
  { c with itemContent := insertA c.itemContent (itemType, itemID, version) content }

/-- `InvalidateItemContent` on the cache: drop every cached version of the
item. -/
def CacheState.invalidateItemContent (c : CacheState) (itemType itemID : String) :
    CacheState :=
  { c with itemContent :=
      c.itemContent.filter (fun p => ¬ (p.1.1 = itemType ∧ p.1.2.1 = itemID)) }

/-- The full mutable world seen by the service: metadata store, blob store,
cache, the in-memory per-item change counters (keyed by the Go string
`itemType:itemID`), and the configured snapshot interval
(`cfg.Snapshot.IntervalChanges`, a Go int). -/
structure World where
  db : DBState
  blob : BlobState
  cache : CacheState
  counters : List (String × Int)
  snapshotInterval : Int
  deriving DecidableEq, Repr

-- ---------------------------------------------------------------------------
-- Access traces
-- ---------------------------------------------------------------------------

/-- One store or cache access performed by a service operation, recorded in
program order. -/
inductive Eff
  | cacheGetMeta
  | cacheSetMeta
  | cacheDelMeta
  | cacheGetContent
  | cacheSetContent
  | cacheInvContent
  | cacheGetUser
  | cacheSetUser
  | dbGetMeta
  | dbGetUser
  | dbCreateUser
  | dbUpdateMeta
  | dbDeleteMeta
  | dbLogAction
  | dbGetHistoryLog
  | dbGetHistoryList
  | blobGet
  | blobPutOk
  | blobPutFail
  | blobDelete
  deriving DecidableEq, Repr

/-- Accesses that mutate the metadata store, the blob store, or history. -/
def Eff.isStoreWrite : Eff → Bool
  | .dbCreateUser => true
  | .dbUpdateMeta => true
  | .dbDeleteMeta => true
  | .dbLogAction => true
  | .blobPutOk => true
  | .blobPutFail => true
  | .blobDelete => true
  | _ => false

/-- Accesses that touch the blob store at all. -/
def Eff.isBlobAccess : Eff → Bool
  | .blobGet => true
  | .blobPutOk => true
  | .blobPutFail => true
  | .blobDelete => true
  | _ => false

/-- True when no metadata compare-and-set occurs before the first successful
blob upload in the trace: the first `dbUpdateMeta`, if any, is preceded by a
`blobPutOk`. -/
def noCasBeforeUpload : List Eff → Bool
  | [] => true
  | .blobPutOk :: _ => true
  | .dbUpdateMeta :: _ => false
  | _ :: rest => noCasBeforeUpload rest

/-- Service-layer error values (the `Err…` sentinels of the service package,
plus the ad-hoc `errors.New` values it returns). -/
inductive SvcErr
  | invalidCredentials
  | usernameTaken
  | itemNotFound
  | permissionDenied
  | invalidItemType
  | versionConflict
  | applyChange
  | revertNotAllowed
  | historyLogNotFound
  | inconsistentState
  | storageFailed
  | contentUnavailable
  | internalError
  deriving DecidableEq, Repr

-- ---------------------------------------------------------------------------
-- Service operations (internal/service/service.go)
-- ---------------------------------------------------------------------------

/-- Modelled from the spec: the Go helper `generateS3Path` is elided from the
source snapshot; the specification fixes the key shape
`<itemType>/<userId>/<itemId>`. -/
def generateS3Path (userID itemID itemTypeStr : String) : String :=
  itemTypeStr ++ "/" ++ userID ++ "/" ++ itemID

/-- `Service.getItemMetaWithCache`: consult the cache; on a miss fetch from
the store (dispatching on the item type, with `ErrInvalidItemType` on an
unrecognized type), map a store miss to `ErrItemNotFound`, and cache a
successful store read. -/
def getItemMetaWithCache (w : World) (itemID itemType : String) :
    Except SvcErr ItemMeta × World × List Eff :=
  match w.cache.getItemMeta itemType itemID with
  | some m => (.ok m, w, [.cacheGetMeta])
  | none =>
    if itemType == "post" || itemType == "codefile" then
      match w.db.getMeta itemType itemID with
      | none => (.error .itemNotFound, w, [.cacheGetMeta, .dbGetMeta])
      | some m =>
        (.ok m, { w with cache := w.cache.setItemMeta itemType itemID m },
         [.cacheGetMeta, .dbGetMeta, .cacheSetMeta])
    else (.error .invalidItemType, w, [.cacheGetMeta])

/-- `Service.getItemContentFromSource`: cached content for the exact version,
else blob download (an absent blob or an empty key reads as empty content);
nothing is cached here and no state changes. -/
def getItemContentFromSource (w : World) (itemID itemType : String)
    (version : Int) (s3Path : String) : Except SvcErr String × List Eff :=
  match w.cache.getItemContent itemType itemID version with
  | some c => (.ok c, [.cacheGetContent])
  | none =>
    if s3Path == "" then (.ok "", [.cacheGetContent])
    else
      match w.blob.download s3Path with
      | .ok c => (.ok c, [.cacheGetContent, .blobGet])
      | .notFound => (.ok "", [.cacheGetContent, .blobGet])
      | .fail => (.error .contentUnavailable, [.cacheGetContent, .blobGet])

/-- Result of `GetItemContent`. -/
structure ContentOut where
  content : String
  version : Int
  err : Option SvcErr
  world : World
  trace : List Eff
  deriving DecidableEq, Repr

/-- `Service.GetItemContent` (the coordinator's getContent): load metadata,
verify ownership, then serve content from the versioned cache or the blob
store, caching on a blob hit. -/
def GetItemContent (w : World) (userID itemID itemTypeStr : String) :
    ContentOut :=
  if ¬ itemTypeIsValid itemTypeStr then ⟨"", 0, some .invalidItemType, w, []⟩
  else
    match getItemMetaWithCache w itemID itemTypeStr with
    | (.error e, w1, t1) => ⟨"", 0, some e, w1, t1⟩
    | (.ok meta, w1, t1) =>
      if meta.userID ≠ userID then ⟨"", 0, some .permissionDenied, w1, t1⟩
      else
        match w1.cache.getItemContent itemTypeStr itemID meta.version with
        | some c => ⟨c, meta.version, none, w1, t1 ++ [.cacheGetContent]⟩
        | none =>
          if meta.s3Path == "" then
            ⟨"", meta.version, none, w1, t1 ++ [.cacheGetContent]⟩
          else
            match w1.blob.download meta.s3Path with
            | .notFound =>
              ⟨"", meta.version, none, w1, t1 ++ [.cacheGetContent, .blobGet]⟩
            | .fail =>
              ⟨"", 0, some .contentUnavailable, w1, t1 ++ [.cacheGetContent, .blobGet]⟩
            | .ok content =>
              ⟨content, meta.version, none,
               { w1 with cache :=
                   w1.cache.setItemContent itemTypeStr itemID meta.version content },
               t1 ++ [.cacheGetContent, .blobGet, .cacheSetContent]⟩

/-- `Service.handleSnapshotting`: with the interval disabled (≤ 0) do nothing;
otherwise add the batch size to the item's in-memory counter and, once the
running count reaches the interval, reset the counter and append one
`snapshot` history entry recording the committed version and the item's
current blob key. -/
def handleSnapshotting (w : World) (now : Int)
    (userID itemID itemTypeStr : String) (currentVersion : Int)
    (currentS3Path : String) (numChangesApplied : Int) : World × List Eff :=
  if w.snapshotInterval ≤ 0 then (w, [])
  else
    let counterKey := itemTypeStr ++ ":" ++ itemID
    let count := lookupD w.counters counterKey 0 + numChangesApplied
    if w.snapshotInterval ≤ count then
      let entry : HistoryLog :=
        { userID := userID, itemID := itemID, itemType := itemTypeStr,
          action := "snapshot", timestamp := now, changeData := none,
          s3PathBefore := "", s3PathAfter := currentS3Path,
          itemVersion := currentVersion, revertedToLogID := none }
      let db2 := (w.db.logAction entry).2
      ({ w with counters := insertA w.counters counterKey 0, db := db2 },
       [.dbLogAction])
    else
      ({ w with counters := insertA w.counters counterKey count }, [])

/-- Result of `ApplyItemChanges`, mirroring the Go return values
`(newVersion int, appliedChanges []models.Change, err error)` plus the
resulting world and the access trace. -/
structure ApplyOut where
  newVersion : Int
  applied : List Change
  err : Option SvcErr
  world : World
  trace : List Eff
  deriving DecidableEq, Repr

/-- `Service.ApplyItemChanges`: the optimistic-concurrency edit pipeline.
Validate the item type; load metadata (cache then store); check ownership and
the base version; materialize current content; run the change applier; upload
the patched content to the blob store; compare-and-set the metadata (version
mismatch is refetched and surfaced as a conflict with the store's current
version — the refetch helper `getItemVersion` is elided from the source and
modelled from the spec as a fresh store read — while any other store error
becomes `ErrInconsistentState`); then invalidate and rewarm caches, append one
`patch` history entry per change, and run the snapshot check. -/
def ApplyItemChanges (w : World) (now : Int)
    (userID itemID itemTypeStr : String) (baseVersion : Int)
    (changes : List Change) : ApplyOut :=
  if ¬ itemTypeIsValid itemTypeStr then ⟨0, [], some .invalidItemType, w, []⟩
  else
    match getItemMetaWithCache w itemID itemTypeStr with
    | (.error e, w1, t1) => ⟨0, [], some e, w1, t1⟩
    | (.ok meta, w1, t1) =>
      if meta.userID ≠ userID then ⟨0, [], some .permissionDenied, w1, t1⟩
      else if meta.version ≠ baseVersion then
        ⟨meta.version, [], some .versionConflict, w1, t1⟩
      else
        let s3Path :=
          if meta.s3Path == "" then generateS3Path userID itemID itemTypeStr
          else meta.s3Path
        match getItemContentFromSource w1 itemID itemTypeStr meta.version s3Path with
        | (.error _, t3) => ⟨0, [], some .contentUnavailable, w1, t1 ++ t3⟩
        | (.ok currentContent, t3) =>
          match applyChanges currentContent changes with
          | none => ⟨0, [], some .applyChange, w1, t1 ++ t3⟩
          | some newContent =>
            match w1.blob.upload s3Path newContent with
            | none => ⟨0, [], some .storageFailed, w1, t1 ++ t3 ++ [.blobPutFail]⟩
            | some blob2 =>
              let w2 := { w1 with blob := blob2 }
              let expectedNewVersion := meta.version + 1
              match w2.db.updateMeta itemTypeStr { meta with s3Path := s3Path } now with
              | .error .versionMismatch =>
                match w2.db.getMeta itemTypeStr itemID with
                | none =>
                  ⟨0, [], some .inconsistentState, w2,
                   t1 ++ t3 ++ [.blobPutOk, .dbUpdateMeta, .dbGetMeta]⟩
                | some cur =>
                  ⟨cur.version, [], some .versionConflict, w2,
                   t1 ++ t3 ++ [.blobPutOk, .dbUpdateMeta, .dbGetMeta]⟩
              | .error _ =>
                ⟨0, [], some .inconsistentState, w2,
                 t1 ++ t3 ++ [.blobPutOk, .dbUpdateMeta]⟩
              | .ok db2 =>
                let w3 := { w2 with db := db2 }
                let cache2 :=
                  (((w3.cache.deleteItemMeta itemTypeStr itemID).invalidateItemContent
                      itemTypeStr itemID).setItemContent itemTypeStr itemID
                      expectedNewVersion newContent)
                let w4 := { w3 with cache := cache2 }
                let db3 := changes.foldl
                  (fun db c =>
                    (db.logAction
                      { userID := userID, itemID := itemID,
                        itemType := itemTypeStr, action := "patch",
                        timestamp := now, changeData := some c,
                        s3PathBefore := "", s3PathAfter := "",
                        itemVersion := expectedNewVersion,
                        revertedToLogID := none }).2) w4.db
                let w5 := { w4 with db := db3 }
                let snap := handleSnapshotting w5 now userID itemID itemTypeStr
                  expectedNewVersion s3Path (changes.length : Int)
                ⟨expectedNewVersion, changes, none, snap.1,
                 t1 ++ t3 ++
                   [.blobPutOk, .dbUpdateMeta, .cacheDelMeta, .cacheInvContent,
                    .cacheSetContent] ++
                   changes.map (fun _ => .dbLogAction) ++ snap.2⟩

/-- Result of `DeleteItem`. -/
structure DeleteOut where
  err : Option SvcErr
  world : World
  trace : List Eff
  deriving DecidableEq, Repr

/-- `Service.DeleteItem`: load metadata (an `ErrItemNotFound` load succeeds
vacuously), verify ownership, delete the metadata row (the error handler for
that delete is elided in the source — `/* ... handle error ... */` — and is
modelled as log-and-continue, which no verified claim depends on), best-effort
delete the blob, append a `delete` history entry, invalidate caches and clear
the item's snapshot counter. -/
def DeleteItem (w : World) (now : Int) (userID itemID itemTypeStr : String) :
    DeleteOut :=
  if ¬ itemTypeIsValid itemTypeStr then ⟨some .invalidItemType, w, []⟩
  else
    match getItemMetaWithCache w itemID itemTypeStr with
    | (.error e, w1, t1) =>
      if e = .itemNotFound then ⟨none, w1, t1⟩ else ⟨some e, w1, t1⟩
    | (.ok meta, w1, t1) =>
      if meta.userID ≠ userID then ⟨some .permissionDenied, w1, t1⟩
      else
        let db2 :=
          match w1.db.deleteMeta itemTypeStr itemID with
          | .ok db2 => db2
          | .error _ => w1.db
        let w2 := { w1 with db := db2 }
        let afterBlob :=
          if meta.s3Path ≠ "" then
            ({ w2 with blob := w2.blob.deleteFile meta.s3Path }, [Eff.blobDelete])
          else (w2, ([] : List Eff))
        let w3 := afterBlob.1
        let entry : HistoryLog :=
          { userID := userID, itemID := itemID, itemType := itemTypeStr,
            action := "delete", timestamp := now, changeData := none,
            s3PathBefore := meta.s3Path, s3PathAfter := "",
            itemVersion := meta.version, revertedToLogID := none }
        let w4 := { w3 with db := (w3.db.logAction entry).2 }
        let cache2 :=
          (w4.cache.deleteItemMeta itemTypeStr itemID).invalidateItemContent
            itemTypeStr itemID
        let w5 := { w4 with
          cache := cache2
          counters := eraseA w4.counters (itemTypeStr ++ ":" ++ itemID) }
        ⟨none, w5,
         t1 ++ [.dbDeleteMeta] ++ afterBlob.2 ++
           [.dbLogAction, .cacheDelMeta, .cacheInvContent]⟩

/-- Result of `GetHistory`. -/
structure HistoryOut where
  logs : Option (List HistoryLog)
  err : Option SvcErr
  world : World
  trace : List Eff
  deriving DecidableEq, Repr

/-- `Service.GetHistory`: verify the caller owns the item (via the cached
metadata load), then list the item's history (newest first, limited). -/
def GetHistory (w : World) (userID itemID itemTypeStr : String) (limit : Int) :
    HistoryOut :=
  if ¬ itemTypeIsValid itemTypeStr then ⟨none, some .invalidItemType, w, []⟩
  else
    match getItemMetaWithCache w itemID itemTypeStr with
    | (.error e, w1, t1) => ⟨none, some e, w1, t1⟩
    | (.ok meta, w1, t1) =>
      if meta.userID ≠ userID then ⟨none, some .permissionDenied, w1, t1⟩
      else
        let logs :=
          (((w1.db.history.filter
              (fun p => p.2.itemID = itemID ∧ p.2.itemType = itemTypeStr)).map
              (fun p => p.2)).reverse).take limit.toNat
        ⟨some logs, none, w1, t1 ++ [.dbGetHistoryList]⟩

/-- Result of `RevertToAction`. -/
structure RevertOut where
  newVersion : Int
  err : Option SvcErr
  world : World
  trace : List Eff
  deriving DecidableEq, Repr

/-- `Service.RevertToAction`: fetch the target history log; only `create` and
`snapshot` entries with a recorded blob key are restore points; verify the
requester owns the referenced item; download the bytes recorded by the target
log and upload them to the item's current blob key; compare-and-set the
metadata (any failure there is `ErrInconsistentState`, never a version
conflict); then invalidate and rewarm caches, append a `revert` history entry
linking back to the target log, and clear the snapshot counter. -/
def RevertToAction (w : World) (now : Int) (userID targetLogID : String) :
    RevertOut :=
  match lookupA w.db.history targetLogID with
  | none => ⟨0, some .historyLogNotFound, w, [.dbGetHistoryLog]⟩
  | some targetLog =>
    if ¬ itemTypeIsValid targetLog.itemType then
      ⟨0, some .invalidItemType, w, [.dbGetHistoryLog]⟩
    else if targetLog.action ≠ "create" ∧ targetLog.action ≠ "snapshot" then
      ⟨0, some .revertNotAllowed, w, [.dbGetHistoryLog]⟩
    else if targetLog.s3PathAfter == "" then
      ⟨0, some .internalError, w, [.dbGetHistoryLog]⟩
    else
      match getItemMetaWithCache w targetLog.itemID targetLog.itemType with
      | (.error e, w1, t1) => ⟨0, some e, w1, .dbGetHistoryLog :: t1⟩
      | (.ok meta, w1, t1) =>
        if meta.userID ≠ userID then
          ⟨0, some .permissionDenied, w1, .dbGetHistoryLog :: t1⟩
        else if meta.s3Path == "" then
          ⟨0, some .internalError, w1, .dbGetHistoryLog :: t1⟩
        else
          match w1.blob.download targetLog.s3PathAfter with
          | .notFound =>
            ⟨0, some .contentUnavailable, w1, .dbGetHistoryLog :: t1 ++ [.blobGet]⟩
          | .fail =>
            ⟨0, some .contentUnavailable, w1, .dbGetHistoryLog :: t1 ++ [.blobGet]⟩
          | .ok revertContent =>
            match w1.blob.upload meta.s3Path revertContent with
            | none =>
              ⟨0, some .storageFailed, w1,
               .dbGetHistoryLog :: t1 ++ [.blobGet, .blobPutFail]⟩
            | some blob2 =>
              let w2 := { w1 with blob := blob2 }
              let expectedNewVersion := meta.version + 1
              match w2.db.updateMeta targetLog.itemType meta now with
              | .error _ =>
                ⟨0, some .inconsistentState, w2,
                 .dbGetHistoryLog :: t1 ++ [.blobGet, .blobPutOk, .dbUpdateMeta]⟩
              | .ok db2 =>
                let w3 := { w2 with db := db2 }
                let cache2 :=
                  (((w3.cache.deleteItemMeta targetLog.itemType
                      targetLog.itemID).invalidateItemContent targetLog.itemType
                      targetLog.itemID).setItemContent targetLog.itemType
                      targetLog.itemID expectedNewVersion revertContent)
                let entry : HistoryLog :=
                  { userID := userID, itemID := targetLog.itemID,
                    itemType := targetLog.itemType, action := "revert",
                    timestamp := now, changeData := none, s3PathBefore := "",
                    s3PathAfter := meta.s3Path,
                    itemVersion := expectedNewVersion,
                    revertedToLogID := some targetLogID }
                let w4 := { w3 with
                  cache := cache2
                  db := (w3.db.logAction entry).2
                  counters := eraseA w3.counters
                    (targetLog.itemType ++ ":" ++ targetLog.itemID) }
                ⟨expectedNewVersion, none, w4,
                 .dbGetHistoryLog :: t1 ++
                   [.blobGet, .blobPutOk, .dbUpdateMeta, .cacheDelMeta,
                    .cacheInvContent, .cacheSetContent, .dbLogAction]⟩

/-- Modelled from the spec: bcrypt password hashing, elided from the source
snapshot (`// ... (hashing logic) ...`); any injective stand-in suffices for
the user-record claims, with hash comparison modelled as equality of hashes. -/
def hashPassword (password : String) : String :=
  "bcrypt$" ++ password

/-- Modelled from the spec: JWT generation for a user id (the token contents
are irrelevant to every claim). -/
def generateJWT (userID : String) : String :=
  "jwt$" ++ userID

/-- Result of `RegisterUser`. -/
structure RegisterOut where
  user : Option User
  err : Option SvcErr
  world : World
  deriving DecidableEq, Repr

/-- `Service.RegisterUser`: build the user record with the password hash
(the username doubles as the id), store it (duplicate usernames are
rejected), then clear the hash before returning the record. -/
def RegisterUser (w : World) (now : Int) (username password : String) :
    RegisterOut :=
  let user : User :=
    { id := username, username := username,
      passwordHash := hashPassword password, createdAt := now }
  match w.db.createUser user with
  | .error _ => ⟨none, some .usernameTaken, w⟩
  | .ok db2 => ⟨some { user with passwordHash := "" }, none, { w with db := db2 }⟩

/-- Result of `LoginUser`. -/
structure LoginOut where
  token : Option String
  user : Option User
  err : Option SvcErr
  world : World
  deriving DecidableEq, Repr

/-- `Service.LoginUser`: the cache probe only logs; authentication always
fetches the stored user, compares the password hash (bcrypt comparison is
elided in the source and modelled as hash equality), issues a token, clears
the hash, caches the cleared record and returns it. -/
def LoginUser (w : World) (username password : String) : LoginOut :=
  match lookupA w.db.users username with
  | none => ⟨none, none, some .invalidCredentials, w⟩
  | some user =>
    if user.passwordHash ≠ hashPassword password then
      ⟨none, none, some .invalidCredentials, w⟩
    else
      let token := generateJWT user.id
      let user2 := { user with passwordHash := "" }
      let cache2 := { w.cache with users := insertA w.cache.users user2.id user2 }
      ⟨some token, some user2, none, { w with cache := cache2 }⟩

-- ---------------------------------------------------------------------------
-- Derived views and concrete fixtures
-- ---------------------------------------------------------------------------

/-- The metadata the service-layer load observes: the cache copy when present,
else the store row. -/
def loadedMeta (w : World) (itemType itemID : String) : Option ItemMeta :=
  match w.cache.getItemMeta itemType itemID with
  | some m => some m
  | none => w.db.getMeta itemType itemID

/-- Post metadata used by the concrete test worlds. -/
def baseMeta : ItemMeta :=
  { id := "p1", userID := "alice", s3Path := "post/alice/p1",
    version := 1, updatedAt := 0 }

/-- A world holding one post owned by alice at version 1 with content
"abc\n", an empty cache, and snapshot interval 3. -/
def baseWorld : World :=
  { db := { users := [], posts := [("p1", baseMeta)], codefiles := [],
            history := [], nextLogID := 0 },
    blob := { files := [("post/alice/p1", "abc\n")], failPut := [], failGet := [] },
    cache := { users := [], itemMeta := [], itemContent := [] },
    counters := [], snapshotInterval := 3 }

/-- An in-bounds single-character insertion at the end of "abc". -/
def insCh : Change := { line := 0, column := 3, text := "d", removed := 0 }

/-- A change whose anchor lies outside the document: the applier rejects it. -/
def outOfRangeCh : Change := { line := 9, column := 0, text := "x", removed := 0 }

/-- baseWorld with the store at version 2 while the cache still holds the
version-1 copy (a stale metadata cache, reachable because cache invalidation
is best-effort). -/
def staleWorld : World :=
  { baseWorld with
    db := { baseWorld.db with posts := [("p1", { baseMeta with version := 2 })] }
    cache := { baseWorld.cache with itemMeta := [(("post", "p1"), baseMeta)] } }

/-- baseWorld with the store row deleted while the cache still holds the
metadata copy. -/
def goneWorld : World :=
  { baseWorld with
    db := { baseWorld.db with posts := [] }
    cache := { baseWorld.cache with itemMeta := [(("post", "p1"), baseMeta)] } }

/-- A snapshot history entry for the concrete revert scenario. -/
def snapEntry : HistoryLog :=
  { userID := "alice", itemID := "p1", itemType := "post", action := "snapshot",
    timestamp := 1, changeData := none, s3PathBefore := "",
    s3PathAfter := "snapkey", itemVersion := 1, revertedToLogID := none }

/-- baseWorld extended with the snapshot log entry and its blob, with the
item's current content "AB". -/
def revertWorld : World :=
  { baseWorld with
    db := { baseWorld.db with history := [("L1", snapEntry)] }
    blob := { baseWorld.blob with
              files := [("post/alice/p1", "AB"), ("snapkey", "A")] } }

/-- baseWorld with the post absent from both the store and the (empty)
cache. -/
def missingWorld : World :=
  { baseWorld with db := { baseWorld.db with posts := [] } }

/-- A world holding one registered user (alice, password "pw"). -/
def userWorld : World :=
  { baseWorld with
    db := { baseWorld.db with
            users := [("alice", { id := "alice", username := "alice",
                                  passwordHash := hashPassword "pw",
                                  createdAt := 0 })] } }

-- ---------------------------------------------------------------------------
-- Shared lemmas about the building blocks
-- ---------------------------------------------------------------------------

/-- The metadata load never touches the metadata store state, the blob store,
the counters, the user cache, or the content cache; its only possible state
change is warming the metadata cache with the value it returns. -/
theorem getItemMetaWithCache_state (w : World) (itemID itemType : String) :
    let r := getItemMetaWithCache w itemID itemType
    r.2.1.db = w.db ∧ r.2.1.blob = w.blob ∧ r.2.1.counters = w.counters ∧
    r.2.1.snapshotInterval = w.snapshotInterval ∧
    r.2.1.cache.users = w.cache.users ∧
    r.2.1.cache.itemContent = w.cache.itemContent ∧
    (r.2.1.cache.itemMeta = w.cache.itemMeta ∨
      ∃ m, r.1 = .ok m ∧
        r.2.1.cache.itemMeta = insertA w.cache.itemMeta (itemType, itemID) m) := by
  unfold getItemMetaWithCache
  split
  · exact ⟨rfl, rfl, rfl, rfl, rfl, rfl, Or.inl rfl⟩
  · split
    · split
      · exact ⟨rfl, rfl, rfl, rfl, rfl, rfl, Or.inl rfl⟩
      · exact ⟨rfl, rfl, rfl, rfl, rfl, rfl, Or.inr ⟨_, rfl, rfl⟩⟩
    · exact ⟨rfl, rfl, rfl, rfl, rfl, rfl, Or.inl rfl⟩

/-- The metadata load emits only cache-meta and store-meta read effects plus
possibly one cache-meta write. -/
theorem getItemMetaWithCache_trace (w : World) (itemID itemType : String) :
    ∀ e ∈ (getItemMetaWithCache w itemID itemType).2.2,
      e = .cacheGetMeta ∨ e = .dbGetMeta ∨ e = .cacheSetMeta := by
  unfold getItemMetaWithCache
  split
  · simp
  · split
    · split <;> simp
    · simp

/-- The metadata load returns the cache-then-store view of the metadata
whenever the item type is recognized. -/
theorem getItemMetaWithCache_ok (w : World) (itemID itemType : String)
    (hvalid : itemTypeIsValid itemType = true) (m : ItemMeta) :
    (getItemMetaWithCache w itemID itemType).1 = .ok m ↔
      loadedMeta w itemType itemID = some m := by
  unfold getItemMetaWithCache loadedMeta
  unfold itemTypeIsValid at hvalid
  split
  · simp_all
  · rw [if_pos hvalid]
    split <;> simp_all

/-- The content materialization step emits only content-cache and blob read
effects. -/
theorem getItemContentFromSource_trace (w : World) (itemID itemType : String)
    (version : Int) (s3Path : String) :
    ∀ e ∈ (getItemContentFromSource w itemID itemType version s3Path).2,
      e = .cacheGetContent ∨ e = .blobGet := by
  unfold getItemContentFromSource
  split
  · simp
  · split
    · simp
    · split <;> simp

/-- Appending a prefix free of CAS and successful-upload events does not
affect `noCasBeforeUpload`. -/
theorem noCasBeforeUpload_append (t1 t2 : List Eff)
    (h : ∀ e ∈ t1, e ≠ .dbUpdateMeta ∧ e ≠ .blobPutOk) :
    noCasBeforeUpload (t1 ++ t2) = noCasBeforeUpload t2 := by
  induction t1 with
  | nil => rfl
  | cons e rest ih =>
    have he := h e (List.mem_cons_self e rest)
    have hrest : ∀ x ∈ rest, x ≠ Eff.dbUpdateMeta ∧ x ≠ Eff.blobPutOk :=
      fun x hx => h x (List.mem_cons_of_mem e hx)
    cases e <;> simp_all [noCasBeforeUpload]

/-- The metadata load can only fail with `ErrItemNotFound` or
`ErrInvalidItemType`. -/
theorem getItemMetaWithCache_error (w : World) (itemID itemType : String)
    (e : SvcErr) (h : (getItemMetaWithCache w itemID itemType).1 = .error e) :
    e = .itemNotFound ∨ e = .invalidItemType := by
  revert h
  unfold getItemMetaWithCache
  split
  · intro h; simp at h
  · split
    · split
      · intro h; simp at h; subst h; simp
      · intro h; simp at h
    · intro h; simp at h; subst h; simp

/-- The metadata CAS reports `notFound` exactly when the row keyed by the
passed record's id is absent. -/
theorem DBState.updateMeta_notFound_iff (db : DBState) (itemType : String)
    (meta : ItemMeta) (now : Int) :
    db.updateMeta itemType meta now = .error .notFound ↔
      db.getMeta itemType meta.id = none := by
  unfold DBState.updateMeta
  iterate 6 (all_goals (first | split | simp_all | skip))

/-- The metadata CAS reports `versionMismatch` exactly when the row exists
with a version different from the passed record's version. -/
theorem DBState.updateMeta_mismatch_iff (db : DBState) (itemType : String)
    (meta : ItemMeta) (now : Int) :
    db.updateMeta itemType meta now = .error .versionMismatch ↔
      ∃ stored, db.getMeta itemType meta.id = some stored ∧
        stored.version ≠ meta.version := by
  unfold DBState.updateMeta
  iterate 6 (all_goals (first | split | simp_all | skip))

/-- The metadata CAS fails only with `notFound` or `versionMismatch`. -/
theorem DBState.updateMeta_error_cases (db : DBState) (itemType : String)
    (meta : ItemMeta) (now : Int) (e : DBErr)
    (h : db.updateMeta itemType meta now = .error e) :
    e = .notFound ∨ e = .versionMismatch := by
  revert h
  unfold DBState.updateMeta
  split
  · intro h
    simp at h
    subst h
    simp
  · split
    · split <;> (intro h; simp at h)
    · intro h
      simp at h
      subst h
      simp

/-- A successful metadata CAS implies the row was present at the expected
version. -/
theorem DBState.updateMeta_ok_version (db : DBState) (itemType : String)
    (meta : ItemMeta) (now : Int) (db2 : DBState)
    (h : db.updateMeta itemType meta now = .ok db2) :
    ∃ stored, db.getMeta itemType meta.id = some stored ∧
      stored.version = meta.version := by
  revert h
  unfold DBState.updateMeta
  split
  · intro h
    simp at h
  · rename_i stored hg
    split
    · rename_i hv
      intro _
      exact ⟨stored, hg, hv⟩
    · intro h
      simp at h

/-- The metadata-load trace contains neither a CAS nor a successful upload,
so it never affects `noCasBeforeUpload`. -/
theorem noCas_meta_prefix (w : World) (itemID itemType : String)
    (rest : List Eff) :
    noCasBeforeUpload ((getItemMetaWithCache w itemID itemType).2.2 ++ rest)
      = noCasBeforeUpload rest := by
  apply noCasBeforeUpload_append
  intro e he
  rcases getItemMetaWithCache_trace w itemID itemType e he with rfl | rfl | rfl <;>
    exact ⟨by simp, by simp⟩

/-- The content-load trace contains neither a CAS nor a successful upload. -/
theorem noCas_content_prefix (w : World) (itemID itemType : String)
    (version : Int) (s3Path : String) (rest : List Eff) :
    noCasBeforeUpload
        ((getItemContentFromSource w itemID itemType version s3Path).2 ++ rest)
      = noCasBeforeUpload rest := by
  apply noCasBeforeUpload_append
  intro e he
  rcases getItemContentFromSource_trace w itemID itemType version s3Path e he
    with rfl | rfl <;> exact ⟨by simp, by simp⟩

/-- Inserting under a key makes that key's lookup return the new value. -/
theorem lookupA_insertA_self {κ α : Type} [DecidableEq κ]
    (l : List (κ × α)) (k : κ) (v : α) :
    lookupA (insertA l k v) k = some v := by
  simp [lookupA, insertA]

/-- A successful metadata CAS leaves users, history and the id counter
untouched, and stores the passed record with the version incremented and the
timestamp updated under its id. -/
theorem DBState.updateMeta_ok_shape (db : DBState) (itemType : String)
    (meta : ItemMeta) (now : Int) (db2 : DBState)
    (h : db.updateMeta itemType meta now = .ok db2) :
    db2.users = db.users ∧ db2.history = db.history ∧
    db2.nextLogID = db.nextLogID ∧
    db2.getMeta itemType meta.id
      = some { meta with version := meta.version + 1, updatedAt := now } := by
  revert h
  unfold DBState.updateMeta
  split
  · intro h
    simp at h
  · split
    · split
      · rename_i ht
        intro h
        simp at h
        subst h
        refine ⟨rfl, rfl, rfl, ?_⟩
        unfold DBState.getMeta
        rw [if_pos ht]
        exact lookupA_insertA_self _ _ _
      · rename_i hg hv ht
        intro h
        simp at h
        subst h
        refine ⟨rfl, rfl, rfl, ?_⟩
        unfold DBState.getMeta
        rw [if_neg ht]
        have ht2 : (itemType == "codefile") = true := by
          unfold DBState.getMeta at hg
          rw [if_neg ht] at hg
          by_contra hc
          rw [if_neg hc] at hg
          simp at hg
        rw [if_pos ht2]
        exact lookupA_insertA_self _ _ _
    · intro h
      simp at h

/-- Appending one history entry preserves the item collections and users and
extends the history by exactly that entry. -/
theorem DBState.logAction_shape (db : DBState) (entry : HistoryLog) :
    (db.logAction entry).2.users = db.users ∧
    (∀ t i, (db.logAction entry).2.getMeta t i = db.getMeta t i) ∧
    ((db.logAction entry).2.history.map (fun p => p.2)
      = db.history.map (fun p => p.2) ++ [entry]) := by
  refine ⟨rfl, fun t i => rfl, ?_⟩
  simp [DBState.logAction]

/-- Folding per-change history appends over the store extends the history by
the mapped entries and preserves the item collections. -/
theorem DBState.foldl_logAction (changes : List Change) (db : DBState)
    (f : Change → HistoryLog) :
    ((changes.foldl (fun d c => (d.logAction (f c)).2) db).history.map
        (fun p => p.2)
      = db.history.map (fun p => p.2) ++ changes.map f) ∧
    (∀ t i, (changes.foldl (fun d c => (d.logAction (f c)).2) db).getMeta t i
      = db.getMeta t i) := by
  induction changes generalizing db with
  | nil => exact ⟨by simp, fun t i => rfl⟩
  | cons c rest ih =>
    obtain ⟨ih1, ih2⟩ := ih (db.logAction (f c)).2
    constructor
    · simp only [List.foldl_cons, List.map_cons]
      rw [ih1]
      rw [(DBState.logAction_shape db (f c)).2.2]
      simp
    · intro t i
      simp only [List.foldl_cons]
      rw [ih2 t i]
      exact (DBState.logAction_shape db (f c)).2.1 t i

/-- Patch history entries never pass the snapshot filter. -/
theorem filter_snapshot_of_patch (cs : List Change) (f : Change → HistoryLog)
    (hf : ∀ c, (f c).action = "patch") :
    (cs.map f).filter (fun e => e.action == "snapshot") = [] := by
  induction cs with
  | nil => rfl
  | cons c rest ih => simp [hf c, ih]

/-- Dropping the pre-existing history prefix keeps exactly the appended
suffix. -/
theorem drop_history_prefix (l : List (String × HistoryLog))
    (l2 : List HistoryLog) :
    ((l.map (fun p => p.2)) ++ l2).drop l.length = l2 := by
  have h := List.drop_left (l.map (fun p => p.2)) l2
  simpa using h

/-- The history entries appended by one coordinator call, oldest first. -/
def appendedEntries (w : World) (o : ApplyOut) : List HistoryLog :=
  (o.world.db.history.map (fun p => p.2)).drop w.db.history.length

/-- The snapshot entries among the history appended by one coordinator
call. -/
def appendedSnapshots (w : World) (o : ApplyOut) : List HistoryLog :=
  (appendedEntries w o).filter (fun e => e.action == "snapshot")

/-- A successful upload stores exactly the given content under the key. -/
theorem BlobState.upload_ok (b : BlobState) (k c : String) (b2 : BlobState)
    (h : b.upload k c = some b2) : b2.files = insertA b.files k c := by
  revert h
  unfold BlobState.upload
  split
  · intro h
    simp at h
  · intro h
    simp at h
    rw [← h]

/-- A successful download returns exactly the stored content. -/
theorem BlobState.download_ok (b : BlobState) (k c : String)
    (h : b.download k = .ok c) : lookupA b.files k = some c := by
  revert h
  unfold BlobState.download
  split
  · intro h
    simp at h
  · split
    · rename_i c2 hl
      intro h
      simp at h
      rw [hl, h]
    · intro h
      simp at h

/-- The after-state of an operation that mutated nothing durable: metadata
store, blob store, counters, content cache and user cache unchanged; the
metadata cache at most warmed with the loaded record. -/
def noStoreMutation (w w2 : World) (itemType itemID : String)
    (mm : ItemMeta) : Prop :=
  w2.db = w.db ∧ w2.blob = w.blob ∧ w2.counters = w.counters ∧
  w2.cache.itemContent = w.cache.itemContent ∧
  w2.cache.users = w.cache.users ∧
  (w2.cache.itemMeta = w.cache.itemMeta ∨
    w2.cache.itemMeta = insertA w.cache.itemMeta (itemType, itemID) mm)

/-- A trace with no write to the metadata store, blob store or history. -/
def storeWriteFree (tr : List Eff) : Prop :=
  ∀ e ∈ tr, e.isStoreWrite = false

-- ---------------------------------------------------------------------------
-- Claims
-- ---------------------------------------------------------------------------

/-- C1: every successful `ApplyItemChanges` call returns
`newVersion = baseVersion + 1` and returns the input change list unchanged
(the success path implies the stored version matched `baseVersion` and the
caller owned the item). -/
theorem applyItemChanges_success_version_and_changes
    (w : World) (now : Int) (userID itemID itemTypeStr : String)
    (baseVersion : Int) (changes : List Change)
    (h : (ApplyItemChanges w now userID itemID itemTypeStr baseVersion
            changes).err = none) :
    (ApplyItemChanges w now userID itemID itemTypeStr baseVersion
        changes).newVersion = baseVersion + 1 ∧
    (ApplyItemChanges w now userID itemID itemTypeStr baseVersion
        changes).applied = changes := by
  revert h
  unfold ApplyItemChanges
  iterate 16 (all_goals (first | split | simp_all | skip))

/-- Witness for C1: the happy patch on the concrete base world. -/
theorem applyItemChanges_success_version_and_changes_witness :
    (ApplyItemChanges baseWorld 5 "alice" "p1" "post" 1 [insCh]).newVersion
        = 1 + 1 ∧
    (ApplyItemChanges baseWorld 5 "alice" "p1" "post" 1 [insCh]).applied
        = [insCh] :=
  applyItemChanges_success_version_and_changes baseWorld 5 "alice" "p1" "post" 1
    [insCh] (by decide)

/-- C2 (amended): when `ApplyItemChanges` fails with `ErrVersionConflict`, the
version returned alongside the error is the loaded metadata's version when the
conflict is detected at the initial load-and-validate step — and the loaded
metadata comes from the cache first, so a stale cache copy may differ from the
store's current version — while a conflict detected at the metadata
compare-and-set returns the version freshly read from the metadata store at
that moment. -/
theorem applyItemChanges_versionConflict_version
    (w : World) (now : Int) (userID itemID itemTypeStr : String)
    (baseVersion : Int) (changes : List Change) (m : ItemMeta)
    (hvalid : itemTypeIsValid itemTypeStr = true)
    (hm : loadedMeta w itemTypeStr itemID = some m)
    (h : (ApplyItemChanges w now userID itemID itemTypeStr baseVersion
            changes).err = some .versionConflict) :
    (m.version ≠ baseVersion ∧
      (ApplyItemChanges w now userID itemID itemTypeStr baseVersion
          changes).newVersion = m.version) ∨
    (m.version = baseVersion ∧
      ∃ cur, w.db.getMeta itemTypeStr itemID = some cur ∧
        (ApplyItemChanges w now userID itemID itemTypeStr baseVersion
            changes).newVersion = cur.version) := by
  have hstate := getItemMetaWithCache_state w itemID itemTypeStr
  revert h
  unfold ApplyItemChanges
  split
  · simp_all
  · split
    · rename_i e w1 t1 heq
      intro h
      simp at h
      subst h
      rcases getItemMetaWithCache_error w itemID itemTypeStr _ (by rw [heq])
        with h1 | h1 <;> simp at h1
    · rename_i meta w1 t1 heq
      have hok : loadedMeta w itemTypeStr itemID = some meta := by
        rw [← getItemMetaWithCache_ok w itemID itemTypeStr hvalid meta, heq]
      have hmm : meta = m := by
        rw [hok] at hm
        exact Option.some.inj hm
      subst hmm
      simp only [heq] at hstate
      obtain ⟨hdb, hblob, hcnt, hsi, hcu, hcc, hmc⟩ := hstate
      split
      · simp
      · split
        · rename_i hne
          intro _
          exact Or.inl ⟨hne, rfl⟩
        · rename_i hveq
          have hveq2 : meta.version = baseVersion := not_ne_iff.mp hveq
          intro h
          split at h
          · rename_i hs3
            simp only [] at h
            split at h
            · simp at h
            · rename_i c t3 heqC
              split at h
              · simp at h
              · rename_i newContent heqA
                split at h
                · simp at h
                · rename_i blob2 heqU
                  split at h
                  · rename_i heqCAS
                    split at h
                    · simp at h
                    · rename_i cur heqR
                      refine Or.inr ⟨hveq2, cur, ?_, ?_⟩
                      · rw [← hdb]; exact heqR
                      · simp [hs3, heqC, heqA, heqU, heqCAS, heqR]
                  · simp at h
                  · simp at h
          · rename_i hs3
            simp only [] at h
            split at h
            · simp at h
            · rename_i c t3 heqC
              split at h
              · simp at h
              · rename_i newContent heqA
                split at h
                · simp at h
                · rename_i blob2 heqU
                  split at h
                  · rename_i heqCAS
                    split at h
                    · simp at h
                    · rename_i cur heqR
                      refine Or.inr ⟨hveq2, cur, ?_, ?_⟩
                      · rw [← hdb]; exact heqR
                      · simp [hs3, heqC, heqA, heqU, heqCAS, heqR]
                  · simp at h
                  · simp at h

/-- Witness for C2 (amended): in the stale-cache world a baseVersion-2 edit
conflicts against the cached version-1 copy, so the returned version is the
loaded metadata's version 1. -/
theorem applyItemChanges_versionConflict_version_witness :
    (baseMeta.version ≠ 2 ∧
      (ApplyItemChanges staleWorld 5 "alice" "p1" "post" 2
          [insCh]).newVersion = baseMeta.version) ∨
    (baseMeta.version = 2 ∧
      ∃ cur, staleWorld.db.getMeta "post" "p1" = some cur ∧
        (ApplyItemChanges staleWorld 5 "alice" "p1" "post" 2
            [insCh]).newVersion = cur.version) :=
  applyItemChanges_versionConflict_version staleWorld 5 "alice" "p1" "post" 2
    [insCh] baseMeta (by decide) (by decide) (by decide)

/-- Counterexample to C2 as stated: with the metadata cache holding a stale
version-1 copy while the store is at version 2, a baseVersion-2 edit fails
with `ErrVersionConflict` returning version 1, which is not the store's
current version 2. -/
theorem applyItemChanges_versionConflict_stale_counterexample :
    (ApplyItemChanges staleWorld 5 "alice" "p1" "post" 2 [insCh]).err
        = some .versionConflict ∧
    (ApplyItemChanges staleWorld 5 "alice" "p1" "post" 2 [insCh]).newVersion
        = 1 ∧
    (staleWorld.db.getMeta "post" "p1").map (fun meta => meta.version)
        = some 2 := by
  decide

/-- C3 (amended): when the metadata compare-and-set in `ApplyItemChanges`
fails after the blob write succeeded (`blobPutOk` in the trace), a version
change is surfaced as `ErrVersionConflict` carrying the store's current
version, while an absent row is surfaced as `ErrInconsistentState` — the code
maps only the `versionMismatch` store error specially and does not translate
the CAS not-found case to `NotFound`; with the row present at the expected
version the CAS succeeds. -/
theorem applyItemChanges_cas_failure_mapping
    (w : World) (now : Int) (userID itemID itemTypeStr : String)
    (baseVersion : Int) (changes : List Change) (m : ItemMeta)
    (hvalid : itemTypeIsValid itemTypeStr = true)
    (hm : loadedMeta w itemTypeStr itemID = some m)
    (hid : m.id = itemID)
    (hput : Eff.blobPutOk ∈ (ApplyItemChanges w now userID itemID itemTypeStr
              baseVersion changes).trace) :
    (w.db.getMeta itemTypeStr itemID = none →
      (ApplyItemChanges w now userID itemID itemTypeStr baseVersion
          changes).err = some .inconsistentState) ∧
    (∀ cur, w.db.getMeta itemTypeStr itemID = some cur →
      cur.version ≠ baseVersion →
      (ApplyItemChanges w now userID itemID itemTypeStr baseVersion
          changes).err = some .versionConflict ∧
      (ApplyItemChanges w now userID itemID itemTypeStr baseVersion
          changes).newVersion = cur.version) ∧
    (∀ cur, w.db.getMeta itemTypeStr itemID = some cur →
      cur.version = baseVersion →
      (ApplyItemChanges w now userID itemID itemTypeStr baseVersion
          changes).err = none) := by
  have hstate := getItemMetaWithCache_state w itemID itemTypeStr
  have htr1 := getItemMetaWithCache_trace w itemID itemTypeStr
  revert hput
  unfold ApplyItemChanges
  split
  · simp_all
  · split
    · rename_i e w1 t1 heq
      intro hput
      rw [heq] at htr1
      rcases htr1 _ hput with h1 | h1 | h1 <;> simp at h1
    · rename_i meta w1 t1 heq
      have hok : loadedMeta w itemTypeStr itemID = some meta := by
        rw [← getItemMetaWithCache_ok w itemID itemTypeStr hvalid meta, heq]
      have hmm : meta = m := by
        rw [hok] at hm
        exact Option.some.inj hm
      subst hmm
      simp only [heq] at hstate
      obtain ⟨hdb, hblob, hcnt, hsi, hcu, hcc, hmc⟩ := hstate
      rw [heq] at htr1
      have hno : Eff.blobPutOk ∉ t1 := by
        intro hmem
        rcases htr1 _ hmem with h1 | h1 | h1 <;> simp at h1
      split
      · intro hput
        exact absurd hput hno
      · split
        · intro hput
          exact absurd hput hno
        · rename_i hveq
          have hver : meta.version = baseVersion := not_ne_iff.mp hveq
          intro hput
          simp only [] at hput ⊢
          generalize hgen : (if (meta.s3Path == "") = true then
            generateS3Path userID itemID itemTypeStr else meta.s3Path)
            = s3p at hput ⊢
          split at hput
          · rename_i a t3 heqC
            have htr3 := getItemContentFromSource_trace w1 itemID itemTypeStr
              meta.version s3p
            rw [heqC] at htr3
            rcases List.mem_append.mp hput with hm1 | hm1
            · exact absurd hm1 hno
            · rcases htr3 _ hm1 with h1 | h1 <;> simp at h1
          · rename_i c t3 heqC
            have htr3 := getItemContentFromSource_trace w1 itemID itemTypeStr
              meta.version s3p
            rw [heqC] at htr3
            split at hput
            · rcases List.mem_append.mp hput with hm1 | hm1
              · exact absurd hm1 hno
              · rcases htr3 _ hm1 with h1 | h1 <;> simp at h1
            · rename_i newContent heqA
              split at hput
              · rcases List.mem_append.mp hput with hm1 | hm1
                · rcases List.mem_append.mp hm1 with hm2 | hm2
                  · exact absurd hm2 hno
                  · rcases htr3 _ hm2 with h1 | h1 <;> simp at h1
                · simp at hm1
              · rename_i blob2 heqU
                clear hput
                cases heqCAS : w1.db.updateMeta itemTypeStr
                    { meta with s3Path := s3p } now with
                | error a =>
                  rcases DBState.updateMeta_error_cases _ _ _ _ _ heqCAS
                    with ha | ha
                  · subst ha
                    have hnf := (DBState.updateMeta_notFound_iff _ _ _ _).mp heqCAS
                    simp only [hid] at hnf
                    rw [hdb] at hnf
                    refine ⟨fun _ => ?_, fun cur hcur _ => ?_,
                      fun cur hcur _ => ?_⟩
                    · simp [heqC, heqA, heqU, heqCAS]
                    · rw [hnf] at hcur
                      simp at hcur
                    · rw [hnf] at hcur
                      simp at hcur
                  · subst ha
                    obtain ⟨stored, hst, hstv⟩ :=
                      (DBState.updateMeta_mismatch_iff _ _ _ _).mp heqCAS
                    simp only [hid] at hst hstv
                    have hstw := hst
                    rw [hdb] at hstw
                    refine ⟨fun hnone => ?_, fun cur hcur hne => ?_,
                      fun cur hcur hveq3 => ?_⟩
                    · rw [hstw] at hnone
                      simp at hnone
                    · rw [hstw] at hcur
                      have hce : stored = cur := Option.some.inj hcur
                      subst hce
                      constructor
                      · simp [heqC, heqA, heqU, heqCAS, hst]
                      · simp [heqC, heqA, heqU, heqCAS, hst]
                    · rw [hstw] at hcur
                      have hce : stored = cur := Option.some.inj hcur
                      subst hce
                      exfalso
                      exact hstv (by rw [hveq3]; rw [hver])
                | ok db2 =>
                  obtain ⟨stored, hst, hstv⟩ :=
                    DBState.updateMeta_ok_version _ _ _ _ _ heqCAS
                  simp only [hid] at hst hstv
                  have hstw := hst
                  rw [hdb] at hstw
                  refine ⟨fun hnone => ?_, fun cur hcur hne => ?_,
                    fun cur hcur hveq3 => ?_⟩
                  · rw [hstw] at hnone
                    simp at hnone
                  · rw [hstw] at hcur
                    have hce : stored = cur := Option.some.inj hcur
                    subst hce
                    exfalso
                    exact hne (by rw [hstv]; exact hver)
                  · simp [heqC, heqA, heqU, heqCAS]

/-- Witness for C3 (amended): in the stale-cache world a baseVersion-1 edit
reaches the CAS (the blob upload succeeds) and the CAS fails because the
store row is at version 2. -/
theorem applyItemChanges_cas_failure_mapping_witness :
    (staleWorld.db.getMeta "post" "p1" = none →
      (ApplyItemChanges staleWorld 5 "alice" "p1" "post" 1 [insCh]).err
        = some .inconsistentState) ∧
    (∀ cur, staleWorld.db.getMeta "post" "p1" = some cur →
      cur.version ≠ 1 →
      (ApplyItemChanges staleWorld 5 "alice" "p1" "post" 1 [insCh]).err
          = some .versionConflict ∧
      (ApplyItemChanges staleWorld 5 "alice" "p1" "post" 1
          [insCh]).newVersion = cur.version) ∧
    (∀ cur, staleWorld.db.getMeta "post" "p1" = some cur →
      cur.version = 1 →
      (ApplyItemChanges staleWorld 5 "alice" "p1" "post" 1 [insCh]).err
        = none) :=
  applyItemChanges_cas_failure_mapping staleWorld 5 "alice" "p1" "post" 1
    [insCh] baseMeta (by decide) (by decide) (by decide) (by decide)

/-- Counterexample to C3 as stated: with the metadata cache still holding the
item while the store row is gone, the edit's blob upload succeeds and the
metadata CAS then fails with the item absent, yet the caller sees
`ErrInconsistentState` rather than the claimed `NotFound`. -/
theorem applyItemChanges_cas_notfound_counterexample :
    Eff.blobPutOk ∈
      (ApplyItemChanges goneWorld 5 "alice" "p1" "post" 1 [insCh]).trace ∧
    goneWorld.db.getMeta "post" "p1" = none ∧
    (ApplyItemChanges goneWorld 5 "alice" "p1" "post" 1 [insCh]).err
        = some .inconsistentState ∧
    ¬ (ApplyItemChanges goneWorld 5 "alice" "p1" "post" 1 [insCh]).err
        = some .itemNotFound := by
  decide

/-- C4 (amended): in every `ApplyItemChanges` execution the metadata CAS is
attempted only after the blob upload has succeeded, and when the change
applier fails (`ErrApplyChange`) or the blob upload fails (storage failure)
the metadata store, the blob contents, the counters, the content cache and
the user cache are unchanged and no history is appended; the one state change
the failure path can leave behind is the read-path warming of the metadata
cache performed by the step-1 load. -/
theorem applyItemChanges_failure_no_persistence
    (w : World) (now : Int) (userID itemID itemTypeStr : String)
    (baseVersion : Int) (changes : List Change) :
    noCasBeforeUpload (ApplyItemChanges w now userID itemID itemTypeStr
        baseVersion changes).trace = true ∧
    ((ApplyItemChanges w now userID itemID itemTypeStr baseVersion
        changes).err = some .applyChange ∨
     (ApplyItemChanges w now userID itemID itemTypeStr baseVersion
        changes).err = some .storageFailed →
      (ApplyItemChanges w now userID itemID itemTypeStr baseVersion
          changes).world.db = w.db ∧
      (ApplyItemChanges w now userID itemID itemTypeStr baseVersion
          changes).world.blob.files = w.blob.files ∧
      (ApplyItemChanges w now userID itemID itemTypeStr baseVersion
          changes).world.counters = w.counters ∧
      (ApplyItemChanges w now userID itemID itemTypeStr baseVersion
          changes).world.cache.itemContent = w.cache.itemContent ∧
      (ApplyItemChanges w now userID itemID itemTypeStr baseVersion
          changes).world.cache.users = w.cache.users ∧
      ((ApplyItemChanges w now userID itemID itemTypeStr baseVersion
           changes).world.cache.itemMeta = w.cache.itemMeta ∨
        ∃ mm, loadedMeta w itemTypeStr itemID = some mm ∧
          (ApplyItemChanges w now userID itemID itemTypeStr baseVersion
              changes).world.cache.itemMeta
            = insertA w.cache.itemMeta (itemTypeStr, itemID) mm)) := by
  have hstate := getItemMetaWithCache_state w itemID itemTypeStr
  unfold ApplyItemChanges
  split
  · exact ⟨rfl, by intro hd; rcases hd with hd | hd <;> simp at hd⟩
  · rename_i hvv
    have hvalid : itemTypeIsValid itemTypeStr = true := not_not.mp hvv
    split
    · rename_i e w1 t1 heq
      simp only [heq] at hstate
      obtain ⟨hdb, hblob, hcnt, hsi, hcu, hcc, hmc⟩ := hstate
      constructor
      · have hA := noCas_meta_prefix w itemID itemTypeStr []
        simp only [heq] at hA
        simpa using hA
      · intro _
        refine ⟨hdb, by rw [hblob], hcnt, hcc, hcu, ?_⟩
        rcases hmc with hmc | ⟨mm, hmm, _⟩
        · exact Or.inl hmc
        · simp at hmm
    · rename_i meta w1 t1 heq
      simp only [heq] at hstate
      obtain ⟨hdb, hblob, hcnt, hsi, hcu, hcc, hmc⟩ := hstate
      have hok : loadedMeta w itemTypeStr itemID = some meta := by
        rw [← getItemMetaWithCache_ok w itemID itemTypeStr hvalid meta, heq]
      have hT1 : ∀ rest, noCasBeforeUpload (t1 ++ rest)
          = noCasBeforeUpload rest := by
        intro rest
        have hA := noCas_meta_prefix w itemID itemTypeStr rest
        simp only [heq] at hA
        exact hA
      have hcacheOut : w1.cache.itemMeta = w.cache.itemMeta ∨
          ∃ mm, loadedMeta w itemTypeStr itemID = some mm ∧
            w1.cache.itemMeta = insertA w.cache.itemMeta (itemTypeStr, itemID) mm := by
        rcases hmc with hmc | ⟨mm, hmm, hins⟩
        · exact Or.inl hmc
        · have : meta = mm := by simpa using hmm
          subst this
          exact Or.inr ⟨meta, hok, hins⟩
      split
      · constructor
        · have := hT1 []
          simpa using this
        · intro hd
          rcases hd with hd | hd <;> simp at hd
      · split
        · constructor
          · have := hT1 []
            simpa using this
          · intro hd
            rcases hd with hd | hd <;> simp at hd
        · simp only []
          generalize (if (meta.s3Path == "") = true then
            generateS3Path userID itemID itemTypeStr else meta.s3Path) = s3p
          rcases heqC : getItemContentFromSource w1 itemID itemTypeStr
            meta.version s3p with ⟨res, t3⟩
          have hT3 : ∀ rest, noCasBeforeUpload (t3 ++ rest)
              = noCasBeforeUpload rest := by
            intro rest
            have hB := noCas_content_prefix w1 itemID itemTypeStr meta.version
              s3p rest
            simp only [heqC] at hB
            exact hB
          cases res with
          | error a =>
            simp only [heqC]
            constructor
            · rw [hT1 t3]
              have := hT3 []
              simpa using this
            · intro hd
              rcases hd with hd | hd <;> simp at hd
          | ok c =>
            simp only [heqC]
            cases happly : applyChanges c changes with
            | none =>
              simp only [happly]
              constructor
              · rw [hT1 t3]
                have := hT3 []
                simpa using this
              · intro _
                exact ⟨hdb, by rw [hblob], hcnt, hcc, hcu, hcacheOut⟩
            | some nc =>
              simp only [happly]
              cases hup : w1.blob.upload s3p nc with
              | none =>
                simp only [hup]
                constructor
                · simp only [List.append_assoc]
                  rw [hT1 (t3 ++ [Eff.blobPutFail]), hT3 [Eff.blobPutFail]]
                  rfl
                · intro _
                  exact ⟨hdb, by rw [hblob], hcnt, hcc, hcu, hcacheOut⟩
              | some blob2 =>
                simp only [hup]
                cases heqCAS : w1.db.updateMeta itemTypeStr
                    { meta with s3Path := s3p } now with
                | error a2 =>
                  cases a2 with
                  | versionMismatch =>
                    simp only [heqCAS]
                    cases heqR : w1.db.getMeta itemTypeStr itemID with
                    | none =>
                      simp only [heqR]
                      constructor
                      · simp only [List.append_assoc]
                        rw [hT1 _, hT3 _]
                        rfl
                      · intro hd
                        rcases hd with hd | hd <;> simp at hd
                    | some cur =>
                      simp only [heqR]
                      constructor
                      · simp only [List.append_assoc]
                        rw [hT1 _, hT3 _]
                        rfl
                      · intro hd
                        rcases hd with hd | hd <;> simp at hd
                  | notFound =>
                    simp only [heqCAS]
                    constructor
                    · simp only [List.append_assoc]
                      rw [hT1 _, hT3 _]
                      rfl
                    · intro hd
                      rcases hd with hd | hd <;> simp at hd
                  | duplicateUser =>
                    simp only [heqCAS]
                    constructor
                    · simp only [List.append_assoc]
                      rw [hT1 _, hT3 _]
                      rfl
                    · intro hd
                      rcases hd with hd | hd <;> simp at hd
                | ok db2 =>
                  simp only [heqCAS]
                  constructor
                  · simp only [List.append_assoc]
                    rw [hT1 _, hT3 _]
                    rfl
                  · intro hd
                    rcases hd with hd | hd <;> simp at hd

/-- Witness for C4 (amended): the out-of-range change on the base world fails
with `ErrApplyChange` while the stores are untouched. -/
theorem applyItemChanges_failure_no_persistence_witness :
    noCasBeforeUpload (ApplyItemChanges baseWorld 5 "alice" "p1" "post" 1
        [outOfRangeCh]).trace = true ∧
    (ApplyItemChanges baseWorld 5 "alice" "p1" "post" 1
        [outOfRangeCh]).world.db = baseWorld.db ∧
    (ApplyItemChanges baseWorld 5 "alice" "p1" "post" 1
        [outOfRangeCh]).world.blob.files = baseWorld.blob.files :=
  have h := applyItemChanges_failure_no_persistence baseWorld 5 "alice" "p1"
    "post" 1 [outOfRangeCh]
  ⟨h.1, (h.2 (Or.inl (by decide))).1, (h.2 (Or.inl (by decide))).2.1⟩

/-- Counterexample to C4 as stated: an `ErrApplyChange` failure with a cold
metadata cache still mutates the cache — the step-1 read warms the metadata
cache before the applier runs, so "no cache mutation is performed" is false. -/
theorem applyItemChanges_failure_cache_counterexample :
    (ApplyItemChanges baseWorld 5 "alice" "p1" "post" 1 [outOfRangeCh]).err
        = some .applyChange ∧
    ¬ (ApplyItemChanges baseWorld 5 "alice" "p1" "post" 1
        [outOfRangeCh]).world.cache.itemMeta = baseWorld.cache.itemMeta := by
  decide

/-- C5: snapshot cadence.  On every successful `ApplyItemChanges`: with the
interval disabled (≤ 0) no snapshot entry is appended and the counters are
untouched; with a positive interval N, if the item's running count plus the
batch size reaches N the counter is reset to 0 and exactly one snapshot entry
is appended whose `itemVersion` is the just-committed version
`baseVersion + 1` and whose `blobKeyAfter` is the item's current blob key
(the key stored in the item's updated metadata); below the threshold no
snapshot is appended and the counter holds the accumulated count. -/
theorem applyItemChanges_snapshot_cadence
    (w : World) (now : Int) (userID itemID itemTypeStr : String)
    (baseVersion : Int) (changes : List Change) (m : ItemMeta)
    (hvalid : itemTypeIsValid itemTypeStr = true)
    (hm : loadedMeta w itemTypeStr itemID = some m)
    (hid : m.id = itemID)
    (h : (ApplyItemChanges w now userID itemID itemTypeStr baseVersion
            changes).err = none) :
    (w.snapshotInterval ≤ 0 →
      appendedSnapshots w (ApplyItemChanges w now userID itemID itemTypeStr
          baseVersion changes) = [] ∧
      (ApplyItemChanges w now userID itemID itemTypeStr baseVersion
          changes).world.counters = w.counters) ∧
    (0 < w.snapshotInterval →
      (w.snapshotInterval ≤
          lookupD w.counters (itemTypeStr ++ ":" ++ itemID) 0
            + (changes.length : Int) →
        lookupA (ApplyItemChanges w now userID itemID itemTypeStr baseVersion
            changes).world.counters (itemTypeStr ++ ":" ++ itemID)
          = some 0 ∧
        ∃ e, appendedSnapshots w (ApplyItemChanges w now userID itemID
              itemTypeStr baseVersion changes) = [e] ∧
          e.itemVersion = baseVersion + 1 ∧
          ∃ dm, (ApplyItemChanges w now userID itemID itemTypeStr baseVersion
                changes).world.db.getMeta itemTypeStr itemID = some dm ∧
            e.s3PathAfter = dm.s3Path) ∧
      (lookupD w.counters (itemTypeStr ++ ":" ++ itemID) 0
          + (changes.length : Int) < w.snapshotInterval →
        appendedSnapshots w (ApplyItemChanges w now userID itemID itemTypeStr
            baseVersion changes) = [] ∧
        lookupA (ApplyItemChanges w now userID itemID itemTypeStr baseVersion
            changes).world.counters (itemTypeStr ++ ":" ++ itemID)
          = some (lookupD w.counters (itemTypeStr ++ ":" ++ itemID) 0
              + (changes.length : Int)))) := by
  have hstate := getItemMetaWithCache_state w itemID itemTypeStr
  revert h
  unfold ApplyItemChanges
  split
  · simp
  · split
    · simp
    · rename_i meta w1 t1 heq
      simp only [heq] at hstate
      obtain ⟨hdb, hblob, hcnt, hsi, hcu, hcc, hmc⟩ := hstate
      have hok : loadedMeta w itemTypeStr itemID = some meta := by
        rw [← getItemMetaWithCache_ok w itemID itemTypeStr hvalid meta, heq]
      have hmm : meta = m := by
        rw [hok] at hm
        exact Option.some.inj hm
      subst hmm
      split
      · simp
      · split
        · simp
        · rename_i hveq
          have hver : meta.version = baseVersion := not_ne_iff.mp hveq
          simp only []
          generalize (if (meta.s3Path == "") = true then
            generateS3Path userID itemID itemTypeStr else meta.s3Path) = s3p
          rcases heqC : getItemContentFromSource w1 itemID itemTypeStr
            meta.version s3p with ⟨res, t3⟩
          cases res with
          | error a =>
            simp only [heqC]
            simp
          | ok c =>
            simp only [heqC]
            cases happly : applyChanges c changes with
            | none =>
              simp only [happly]
              simp
            | some nc =>
              simp only [happly]
              cases hup : w1.blob.upload s3p nc with
              | none =>
                simp only [hup]
                simp
              | some blob2 =>
                simp only [hup]
                cases heqCAS : w1.db.updateMeta itemTypeStr
                    { meta with s3Path := s3p } now with
                | error a2 =>
                  cases a2 with
                  | versionMismatch =>
                    simp only [heqCAS]
                    cases heqR : w1.db.getMeta itemTypeStr itemID <;>
                      simp only [heqR] <;> simp
                  | notFound =>
                    simp only [heqCAS]
                    simp
                  | duplicateUser =>
                    simp only [heqCAS]
                    simp
                | ok db2 =>
                  simp only [heqCAS]
                  intro _
                  obtain ⟨hu2, hh2, hn2, hg2⟩ :=
                    DBState.updateMeta_ok_shape _ _ _ _ _ heqCAS
                  simp only [hid] at hg2
                  obtain ⟨hfold, hfoldMeta⟩ := DBState.foldl_logAction changes db2
                    (fun c =>
                      { userID := userID, itemID := itemID,
                        itemType := itemTypeStr, action := "patch",
                        timestamp := now, changeData := some c,
                        s3PathBefore := "", s3PathAfter := "",
                        itemVersion := meta.version + 1,
                        revertedToLogID := none })
                  unfold handleSnapshotting
                  simp only []
                  split
                  · rename_i hc0
                    constructor
                    · intro _
                      constructor
                      · simp only [appendedSnapshots, appendedEntries]
                        have hmap : (List.foldl
                            (fun d c => (d.logAction
                              { userID := userID, itemID := itemID,
                                itemType := itemTypeStr, action := "patch",
                                timestamp := now, changeData := some c,
                                s3PathBefore := "", s3PathAfter := "",
                                itemVersion := meta.version + 1,
                                revertedToLogID := none }).2) db2
                            changes).history.map (fun p => p.2)
                            = w.db.history.map (fun p => p.2) ++
                              changes.map (fun c =>
                                { userID := userID, itemID := itemID,
                                  itemType := itemTypeStr, action := "patch",
                                  timestamp := now, changeData := some c,
                                  s3PathBefore := "", s3PathAfter := "",
                                  itemVersion := meta.version + 1,
                                  revertedToLogID := none }) := by
                          rw [hfold, hh2, hdb]
                        rw [hmap, drop_history_prefix,
                          filter_snapshot_of_patch _ _ (fun c => rfl)]
                      · exact hcnt
                    · intro hI
                      rw [hsi] at hc0
                      omega
                  · rename_i hcPos
                    rw [hsi] at hcPos
                    split
                    · rename_i hth
                      rw [hsi, hcnt] at hth
                      constructor
                      · intro h0
                        omega
                      · intro _
                        constructor
                        · intro _
                          constructor
                          · exact lookupA_insertA_self _ _ _
                          · refine
                              ⟨{ userID := userID, itemID := itemID,
                                 itemType := itemTypeStr, action := "snapshot",
                                 timestamp := now, changeData := none,
                                 s3PathBefore := "", s3PathAfter := s3p,
                                 itemVersion := meta.version + 1,
                                 revertedToLogID := none },
                               ?_, by rw [hver], ?_⟩
                            · simp only [appendedSnapshots, appendedEntries]
                              rw [(DBState.logAction_shape _ _).2.2, hfold,
                                hh2, hdb, List.append_assoc,
                                drop_history_prefix, List.filter_append,
                                filter_snapshot_of_patch _ _ (fun c => rfl)]
                              simp
                            · refine
                                ⟨{ id := itemID, userID := meta.userID,
                                   s3Path := s3p, version := meta.version + 1,
                                   updatedAt := now }, ?_, rfl⟩
                              rw [(DBState.logAction_shape _ _).2.1 itemTypeStr
                                itemID, hfoldMeta itemTypeStr itemID]
                              exact hg2
                        · intro hlt
                          omega
                    · rename_i hbelow
                      rw [hsi, hcnt] at hbelow
                      constructor
                      · intro h0
                        omega
                      · intro _
                        constructor
                        · intro hth2
                          omega
                        · intro _
                          constructor
                          · simp only [appendedSnapshots, appendedEntries]
                            have hmap : (List.foldl
                                (fun d c => (d.logAction
                                  { userID := userID, itemID := itemID,
                                    itemType := itemTypeStr, action := "patch",
                                    timestamp := now, changeData := some c,
                                    s3PathBefore := "", s3PathAfter := "",
                                    itemVersion := meta.version + 1,
                                    revertedToLogID := none }).2) db2
                                changes).history.map (fun p => p.2)
                                = w.db.history.map (fun p => p.2) ++
                                  changes.map (fun c =>
                                    { userID := userID, itemID := itemID,
                                      itemType := itemTypeStr,
                                      action := "patch", timestamp := now,
                                      changeData := some c, s3PathBefore := "",
                                      s3PathAfter := "",
                                      itemVersion := meta.version + 1,
                                      revertedToLogID := none }) := by
                              rw [hfold, hh2, hdb]
                            rw [hmap, drop_history_prefix,
                              filter_snapshot_of_patch _ _ (fun c => rfl)]
                          · rw [hcnt]
                            exact lookupA_insertA_self _ _ _

/-- Witness for C5: in the base world (interval 3, empty counter) a
single-change batch stays below the threshold: no snapshot is appended and
the counter advances to 1. -/
theorem applyItemChanges_snapshot_cadence_witness :
    appendedSnapshots baseWorld (ApplyItemChanges baseWorld 5 "alice" "p1"
        "post" 1 [insCh]) = [] ∧
    lookupA (ApplyItemChanges baseWorld 5 "alice" "p1" "post" 1
        [insCh]).world.counters ("post" ++ ":" ++ "p1")
      = some (lookupD baseWorld.counters ("post" ++ ":" ++ "p1") 0
          + (([insCh] : List Change).length : Int)) :=
  ((applyItemChanges_snapshot_cadence baseWorld 5 "alice" "p1" "post" 1
      [insCh] baseMeta (by decide) (by decide) (by decide) (by decide)).2
    (by decide)).2 (by decide)

/-- C6 (amended): `RevertToAction` succeeds only when the target log entry
exists, its action is `create` or `snapshot`, and the requester owns the
referenced item; a missing log entry or a disallowed action kind is rejected
with the state exactly unchanged, and a non-owner requester is rejected with
no store write performed — the metadata, blob and history stores, the content
cache, the user cache and the counters are unchanged, though the ownership
lookup may warm the metadata cache. -/
theorem revertToAction_rejects (w : World) (now : Int)
    (userID targetLogID : String) :
    ((RevertToAction w now userID targetLogID).err = none →
      ∃ log, lookupA w.db.history targetLogID = some log ∧
        (log.action = "create" ∨ log.action = "snapshot") ∧
        ∃ mm, loadedMeta w log.itemType log.itemID = some mm ∧
          mm.userID = userID) ∧
    (lookupA w.db.history targetLogID = none →
      (RevertToAction w now userID targetLogID).err
          = some .historyLogNotFound ∧
      (RevertToAction w now userID targetLogID).world = w) ∧
    (∀ log, lookupA w.db.history targetLogID = some log →
      itemTypeIsValid log.itemType = true →
      log.action ≠ "create" ∧ log.action ≠ "snapshot" →
      (RevertToAction w now userID targetLogID).err = some .revertNotAllowed ∧
      (RevertToAction w now userID targetLogID).world = w) ∧
    (∀ log mm, lookupA w.db.history targetLogID = some log →
      itemTypeIsValid log.itemType = true →
      (log.action = "create" ∨ log.action = "snapshot") →
      log.s3PathAfter ≠ "" →
      loadedMeta w log.itemType log.itemID = some mm →
      mm.userID ≠ userID →
      (RevertToAction w now userID targetLogID).err = some .permissionDenied ∧
      (RevertToAction w now userID targetLogID).world.db = w.db ∧
      (RevertToAction w now userID targetLogID).world.blob = w.blob ∧
      (RevertToAction w now userID targetLogID).world.counters = w.counters ∧
      (RevertToAction w now userID targetLogID).world.cache.itemContent
        = w.cache.itemContent ∧
      (RevertToAction w now userID targetLogID).world.cache.users
        = w.cache.users ∧
      ((RevertToAction w now userID targetLogID).world.cache.itemMeta
          = w.cache.itemMeta ∨
        (RevertToAction w now userID targetLogID).world.cache.itemMeta
          = insertA w.cache.itemMeta (log.itemType, log.itemID) mm) ∧
      (∀ e ∈ (RevertToAction w now userID targetLogID).trace,
        e.isStoreWrite = false)) := by
  refine ⟨?_, ?_, ?_, ?_⟩
  · intro hnone
    unfold RevertToAction at hnone
    cases hL : lookupA w.db.history targetLogID with
    | none =>
      simp only [hL] at hnone
      simp at hnone
    | some log =>
      simp only [hL] at hnone
      refine ⟨log, rfl, ?_⟩
      by_cases hv : itemTypeIsValid log.itemType = true
      · simp only [hv] at hnone
        by_cases hact : log.action ≠ "create" ∧ log.action ≠ "snapshot"
        · rw [if_neg (by simp [hv])] at hnone
          rw [if_pos hact] at hnone
          simp at hnone
        · have haOK : log.action = "create" ∨ log.action = "snapshot" := by
            rcases not_and_or.mp hact with h1 | h1
            · exact Or.inl (not_not.mp h1)
            · exact Or.inr (not_not.mp h1)
          refine ⟨haOK, ?_⟩
          rw [if_neg (by simp [hv])] at hnone
          rw [if_neg hact] at hnone
          by_cases hpath : (log.s3PathAfter == "") = true
          · rw [if_pos hpath] at hnone
            simp at hnone
          · rw [if_neg hpath] at hnone
            rcases heqM : getItemMetaWithCache w log.itemID log.itemType
              with ⟨resM, w1, t1⟩
            cases resM with
            | error e =>
              simp only [heqM] at hnone
              simp at hnone
            | ok metaM =>
              have hload : loadedMeta w log.itemType log.itemID = some metaM := by
                rw [← getItemMetaWithCache_ok w log.itemID log.itemType hv
                  metaM, heqM]
              refine ⟨metaM, hload, ?_⟩
              simp only [heqM] at hnone
              by_cases howner : metaM.userID ≠ userID
              · rw [if_pos howner] at hnone
                simp at hnone
              · exact not_ne_iff.mp howner
      · rw [if_pos (by simp [hv])] at hnone
        simp at hnone
  · intro hL
    unfold RevertToAction
    simp only [hL]
    simp
  · intro log hL hv hact
    unfold RevertToAction
    simp only [hL]
    rw [if_neg (by simp [hv])]
    rw [if_pos hact]
    exact ⟨rfl, rfl⟩
  · intro log mm hL hv haOK hpath hload howner
    unfold RevertToAction
    simp only [hL]
    rw [if_neg (by simp [hv])]
    rw [if_neg (by rcases haOK with h1 | h1 <;> simp [h1])]
    rw [if_neg (by simp [hpath])]
    rcases heqM : getItemMetaWithCache w log.itemID log.itemType
      with ⟨resM, w1, t1⟩
    have hstate := getItemMetaWithCache_state w log.itemID log.itemType
    simp only [heqM] at hstate
    obtain ⟨hdb, hblob, hcnt, hsi, hcu, hcc, hmc⟩ := hstate
    have htr1 := getItemMetaWithCache_trace w log.itemID log.itemType
    rw [heqM] at htr1
    cases resM with
    | error e =>
      exfalso
      have : (getItemMetaWithCache w log.itemID log.itemType).1 = .ok mm := by
        rw [getItemMetaWithCache_ok w log.itemID log.itemType hv mm]
        exact hload
      rw [heqM] at this
      simp at this
    | ok metaM =>
      have hmmeq : metaM = mm := by
        have : (getItemMetaWithCache w log.itemID log.itemType).1
            = .ok metaM := by rw [heqM]
        rw [getItemMetaWithCache_ok w log.itemID log.itemType hv metaM] at this
        rw [hload] at this
        exact (Option.some.inj this).symm
      subst hmmeq
      simp only []
      rw [if_pos howner]
      refine ⟨rfl, hdb, hblob, hcnt, hcc, hcu, ?_, ?_⟩
      · rcases hmc with hmc | ⟨mm2, hmm2, hins⟩
        · exact Or.inl hmc
        · have : metaM = mm2 := by simpa using hmm2
          subst this
          exact Or.inr hins
      · intro e he
        rcases List.mem_cons.mp he with rfl | he2
        · rfl
        · rcases htr1 _ he2 with rfl | rfl | rfl <;> rfl

/-- Witness for C6 (amended): a non-owner revert request against the concrete
snapshot world is rejected with `ErrPermissionDenied` and no store write. -/
theorem revertToAction_rejects_witness :
    (RevertToAction revertWorld 7 "bob" "L1").err = some .permissionDenied ∧
    (RevertToAction revertWorld 7 "bob" "L1").world.db = revertWorld.db ∧
    (RevertToAction revertWorld 7 "bob" "L1").world.blob = revertWorld.blob ∧
    (RevertToAction revertWorld 7 "bob" "L1").world.counters
      = revertWorld.counters ∧
    (RevertToAction revertWorld 7 "bob" "L1").world.cache.itemContent
      = revertWorld.cache.itemContent ∧
    (RevertToAction revertWorld 7 "bob" "L1").world.cache.users
      = revertWorld.cache.users ∧
    ((RevertToAction revertWorld 7 "bob" "L1").world.cache.itemMeta
        = revertWorld.cache.itemMeta ∨
      (RevertToAction revertWorld 7 "bob" "L1").world.cache.itemMeta
        = insertA revertWorld.cache.itemMeta ("post", "p1") baseMeta) ∧
    (∀ e ∈ (RevertToAction revertWorld 7 "bob" "L1").trace,
      e.isStoreWrite = false) :=
  (revertToAction_rejects revertWorld 7 "bob" "L1").2.2.2 snapEntry baseMeta
    (by decide) (by decide) (by decide) (by decide) (by decide) (by decide)

/-- Counterexample to C6 as stated: the non-owner rejection is not free of
state change — with a cold metadata cache the ownership lookup warms the
cache, so the world after the rejected call differs from the world before. -/
theorem revertToAction_nonowner_state_counterexample :
    (RevertToAction revertWorld 7 "bob" "L1").err = some .permissionDenied ∧
    ¬ (RevertToAction revertWorld 7 "bob" "L1").world = revertWorld := by
  decide

/-- C7: on every successful `RevertToAction` the bytes recorded by the target
log are stored under the item's current (unchanged) blob key, the item's
version becomes the loaded version plus one, and a `revert` history entry is
appended carrying `revertedToLogId = targetLogID` and the new version;
further, once the blob write has succeeded the only outcomes are success or
`ErrInconsistentState`, and `RevertToAction` never returns a version
conflict. -/
theorem revertToAction_success_spec (w : World) (now : Int)
    (userID targetLogID : String) (log : HistoryLog) (mm : ItemMeta)
    (hL : lookupA w.db.history targetLogID = some log)
    (hload : loadedMeta w log.itemType log.itemID = some mm)
    (hid : mm.id = log.itemID) :
    ((RevertToAction w now userID targetLogID).err = none →
      (RevertToAction w now userID targetLogID).newVersion = mm.version + 1 ∧
      lookupA (RevertToAction w now userID targetLogID).world.blob.files
          mm.s3Path = lookupA w.blob.files log.s3PathAfter ∧
      (∃ dm, (RevertToAction w now userID targetLogID).world.db.getMeta
            log.itemType log.itemID = some dm ∧
        dm.version = mm.version + 1 ∧ dm.s3Path = mm.s3Path) ∧
      (∃ e, (((RevertToAction w now userID targetLogID).world.db.history.map
            (fun p => p.2)).drop w.db.history.length) = [e] ∧
        e.action = "revert" ∧ e.revertedToLogID = some targetLogID ∧
        e.itemVersion = mm.version + 1 ∧ e.s3PathAfter = mm.s3Path)) ∧
    (Eff.blobPutOk ∈ (RevertToAction w now userID targetLogID).trace →
      (RevertToAction w now userID targetLogID).err = none ∨
      (RevertToAction w now userID targetLogID).err
        = some .inconsistentState) ∧
    (RevertToAction w now userID targetLogID).err
      ≠ some .versionConflict := by
  unfold RevertToAction
  simp only [hL]
  by_cases hv : itemTypeIsValid log.itemType = true
  · rw [if_neg (by simp [hv])]
    by_cases hact : log.action ≠ "create" ∧ log.action ≠ "snapshot"
    · rw [if_pos hact]
      exact ⟨by intro h0; simp at h0, by intro hput; simp at hput, by simp⟩
    · rw [if_neg hact]
      by_cases hpath : (log.s3PathAfter == "") = true
      · rw [if_pos hpath]
        exact ⟨by intro h0; simp at h0, by intro hput; simp at hput, by simp⟩
      · rw [if_neg hpath]
        rcases heqM : getItemMetaWithCache w log.itemID log.itemType
          with ⟨resM, w1, t1⟩
        have hstate := getItemMetaWithCache_state w log.itemID log.itemType
        simp only [heqM] at hstate
        obtain ⟨hdb, hblob, hcnt, hsi, hcu, hcc, hmc⟩ := hstate
        have htr1 := getItemMetaWithCache_trace w log.itemID log.itemType
        rw [heqM] at htr1
        cases resM with
        | error e =>
          exfalso
          have hcontra : (getItemMetaWithCache w log.itemID log.itemType).1
              = .ok mm := by
            rw [getItemMetaWithCache_ok w log.itemID log.itemType hv mm]
            exact hload
          rw [heqM] at hcontra
          simp at hcontra
        | ok metaM =>
          have hmmeq : metaM = mm := by
            have hthis : (getItemMetaWithCache w log.itemID log.itemType).1
                = .ok metaM := by rw [heqM]
            rw [getItemMetaWithCache_ok w log.itemID log.itemType hv metaM]
              at hthis
            rw [hload] at hthis
            exact (Option.some.inj hthis).symm
          subst hmmeq
          simp only [heqM]
          by_cases howner : metaM.userID ≠ userID
          · rw [if_pos howner]
            refine ⟨by intro h0; simp at h0, ?_, by simp⟩
            intro hput
            simp [List.mem_cons] at hput
            rcases htr1 _ hput with h1 | h1 | h1 <;> simp at h1
          · rw [if_neg howner]
            by_cases hcur : (metaM.s3Path == "") = true
            · rw [if_pos hcur]
              refine ⟨by intro h0; simp at h0, ?_, by simp⟩
              intro hput
              simp [List.mem_cons] at hput
              rcases htr1 _ hput with h1 | h1 | h1 <;> simp at h1
            · rw [if_neg hcur]
              cases heqD : w1.blob.download log.s3PathAfter with
              | notFound =>
                simp only [heqD]
                refine ⟨by intro h0; simp at h0, ?_, by simp⟩
                intro hput
                simp [List.mem_append, List.mem_cons] at hput
                rcases htr1 _ hput with h1 | h1 | h1 <;> simp at h1
              | fail =>
                simp only [heqD]
                refine ⟨by intro h0; simp at h0, ?_, by simp⟩
                intro hput
                simp [List.mem_append, List.mem_cons] at hput
                rcases htr1 _ hput with h1 | h1 | h1 <;> simp at h1
              | ok rc =>
                simp only [heqD]
                cases hup : w1.blob.upload metaM.s3Path rc with
                | none =>
                  simp only [hup]
                  refine ⟨by intro h0; simp at h0, ?_, by simp⟩
                  intro hput
                  simp [List.mem_append, List.mem_cons] at hput
                  rcases htr1 _ hput with h1 | h1 | h1 <;> simp at h1
                | some blob2 =>
                  simp only [hup]
                  cases heqCAS : w1.db.updateMeta log.itemType metaM now with
                  | error a =>
                    simp only [heqCAS]
                    exact ⟨by intro h0; simp at h0,
                      fun _ => by simp, by simp⟩
                  | ok db2 =>
                    simp only [heqCAS]
                    obtain ⟨hu2, hh2, hn2, hg2⟩ :=
                      DBState.updateMeta_ok_shape _ _ _ _ _ heqCAS
                    simp only [hid] at hg2
                    refine ⟨?_, fun _ => by simp, by simp⟩
                    intro _
                    refine ⟨by simp, ?_, ?_, ?_⟩
                    · rw [BlobState.upload_ok _ _ _ _ hup,
                        lookupA_insertA_self, ← hblob,
                        BlobState.download_ok _ _ _ heqD]
                    · refine
                        ⟨{ id := log.itemID, userID := metaM.userID,
                           s3Path := metaM.s3Path,
                           version := metaM.version + 1,
                           updatedAt := now }, ?_, by simp, by simp⟩
                      rw [(DBState.logAction_shape _ _).2.1 log.itemType
                        log.itemID]
                      exact hg2
                    · refine
                        ⟨{ userID := userID, itemID := log.itemID,
                           itemType := log.itemType, action := "revert",
                           timestamp := now, changeData := none,
                           s3PathBefore := "", s3PathAfter := metaM.s3Path,
                           itemVersion := metaM.version + 1,
                           revertedToLogID := some targetLogID },
                         ?_, rfl, rfl, rfl, rfl⟩
                      rw [(DBState.logAction_shape _ _).2.2, hh2, hdb,
                        drop_history_prefix]
  · rw [if_pos (by simp [hv])]
    exact ⟨by intro h0; simp at h0, by intro hput; simp at hput, by simp⟩

/-- Witness for C7: the concrete revert of "AB" back to the snapshot "A"
bumps the version to 2, rewrites the item's blob in place and appends the
linking `revert` entry. -/
theorem revertToAction_success_spec_witness :
    (RevertToAction revertWorld 7 "alice" "L1").newVersion
        = baseMeta.version + 1 ∧
    lookupA (RevertToAction revertWorld 7 "alice" "L1").world.blob.files
        baseMeta.s3Path = lookupA revertWorld.blob.files snapEntry.s3PathAfter ∧
    (∃ dm, (RevertToAction revertWorld 7 "alice" "L1").world.db.getMeta
          "post" "p1" = some dm ∧
      dm.version = baseMeta.version + 1 ∧ dm.s3Path = baseMeta.s3Path) ∧
    (∃ e, (((RevertToAction revertWorld 7 "alice" "L1").world.db.history.map
          (fun p => p.2)).drop revertWorld.db.history.length) = [e] ∧
      e.action = "revert" ∧ e.revertedToLogID = some "L1" ∧
      e.itemVersion = baseMeta.version + 1 ∧ e.s3PathAfter = baseMeta.s3Path) :=
  (revertToAction_success_spec revertWorld 7 "alice" "L1" snapEntry baseMeta
    (by decide) (by decide) (by decide)).1 (by decide)

/-- C8 (amended): for a user who does not own the item, every coordinator
operation — getContent, applyChanges (any base version and changes),
deleteItem, getHistory (any limit), and revertToAction through a restore-point
log of the item — returns `ErrPermissionDenied` and performs no store write:
metadata, blob and history stores, counters, content cache and user cache are
unchanged and the trace holds no write effect.  The ownership check itself
reads the metadata (cache first, then store) and may warm the metadata cache,
so the operations are not free of store reads. -/
theorem coordinator_nonowner_denied
    (w : World) (now : Int) (userID itemID itemTypeStr : String)
    (mm : ItemMeta)
    (hvalid : itemTypeIsValid itemTypeStr = true)
    (hload : loadedMeta w itemTypeStr itemID = some mm)
    (howner : mm.userID ≠ userID) :
    ((GetItemContent w userID itemID itemTypeStr).err
        = some .permissionDenied ∧
      noStoreMutation w (GetItemContent w userID itemID itemTypeStr).world
        itemTypeStr itemID mm ∧
      storeWriteFree (GetItemContent w userID itemID itemTypeStr).trace) ∧
    (∀ baseVersion changes,
      (ApplyItemChanges w now userID itemID itemTypeStr baseVersion
          changes).err = some .permissionDenied ∧
      noStoreMutation w (ApplyItemChanges w now userID itemID itemTypeStr
          baseVersion changes).world itemTypeStr itemID mm ∧
      storeWriteFree (ApplyItemChanges w now userID itemID itemTypeStr
          baseVersion changes).trace) ∧
    ((DeleteItem w now userID itemID itemTypeStr).err
        = some .permissionDenied ∧
      noStoreMutation w (DeleteItem w now userID itemID itemTypeStr).world
        itemTypeStr itemID mm ∧
      storeWriteFree (DeleteItem w now userID itemID itemTypeStr).trace) ∧
    (∀ limit, (GetHistory w userID itemID itemTypeStr limit).err
        = some .permissionDenied ∧
      noStoreMutation w (GetHistory w userID itemID itemTypeStr limit).world
        itemTypeStr itemID mm ∧
      storeWriteFree (GetHistory w userID itemID itemTypeStr limit).trace) ∧
    (∀ targetLogID log, lookupA w.db.history targetLogID = some log →
      log.itemType = itemTypeStr → log.itemID = itemID →
      (log.action = "create" ∨ log.action = "snapshot") →
      log.s3PathAfter ≠ "" →
      (RevertToAction w now userID targetLogID).err
          = some .permissionDenied ∧
      noStoreMutation w (RevertToAction w now userID targetLogID).world
        itemTypeStr itemID mm ∧
      storeWriteFree (RevertToAction w now userID targetLogID).trace) := by
  rcases heqM : getItemMetaWithCache w itemID itemTypeStr with ⟨resM, w1, t1⟩
  have hstate := getItemMetaWithCache_state w itemID itemTypeStr
  simp only [heqM] at hstate
  obtain ⟨hdb, hblob, hcnt, hsi, hcu, hcc, hmc⟩ := hstate
  have htr1 := getItemMetaWithCache_trace w itemID itemTypeStr
  rw [heqM] at htr1
  cases resM with
  | error e =>
    exfalso
    have hcontra : (getItemMetaWithCache w itemID itemTypeStr).1 = .ok mm := by
      rw [getItemMetaWithCache_ok w itemID itemTypeStr hvalid mm]
      exact hload
    rw [heqM] at hcontra
    simp at hcontra
  | ok metaM =>
    have hmmeq : metaM = mm := by
      have hthis : (getItemMetaWithCache w itemID itemTypeStr).1
          = .ok metaM := by rw [heqM]
      rw [getItemMetaWithCache_ok w itemID itemTypeStr hvalid metaM] at hthis
      rw [hload] at hthis
      exact (Option.some.inj hthis).symm
    subst hmmeq
    have hmetaOr : w1.cache.itemMeta = w.cache.itemMeta ∨
        w1.cache.itemMeta
          = insertA w.cache.itemMeta (itemTypeStr, itemID) metaM := by
      rcases hmc with h | ⟨mm2, hmm2, hins⟩
      · exact Or.inl h
      · have hx : metaM = mm2 := by simpa using hmm2
        subst hx
        exact Or.inr hins
    have htfree : storeWriteFree t1 := by
      intro e he
      rcases htr1 _ he with rfl | rfl | rfl <;> rfl
    refine ⟨?_, ?_, ?_, ?_, ?_⟩
    · unfold GetItemContent
      rw [if_neg (by simp [hvalid])]
      simp only [heqM]
      rw [if_pos howner]
      exact ⟨rfl, ⟨hdb, hblob, hcnt, hcc, hcu, hmetaOr⟩, htfree⟩
    · intro baseVersion changes
      unfold ApplyItemChanges
      rw [if_neg (by simp [hvalid])]
      simp only [heqM]
      rw [if_pos howner]
      exact ⟨rfl, ⟨hdb, hblob, hcnt, hcc, hcu, hmetaOr⟩, htfree⟩
    · unfold DeleteItem
      rw [if_neg (by simp [hvalid])]
      simp only [heqM]
      rw [if_pos howner]
      exact ⟨rfl, ⟨hdb, hblob, hcnt, hcc, hcu, hmetaOr⟩, htfree⟩
    · intro limit
      unfold GetHistory
      rw [if_neg (by simp [hvalid])]
      simp only [heqM]
      rw [if_pos howner]
      exact ⟨rfl, ⟨hdb, hblob, hcnt, hcc, hcu, hmetaOr⟩, htfree⟩
    · intro targetLogID log hL hlt hli haOK hpath
      unfold RevertToAction
      simp only [hL, hlt, hli]
      rw [if_neg (by simp [hvalid])]
      rw [if_neg (by rcases haOK with h1 | h1 <;> simp [h1])]
      rw [if_neg (by simp [hpath])]
      simp only [heqM]
      rw [if_pos howner]
      refine ⟨rfl, ⟨hdb, hblob, hcnt, hcc, hcu, hmetaOr⟩, ?_⟩
      intro e he
      rcases List.mem_cons.mp he with rfl | he2
      · rfl
      · exact htfree _ he2

/-- Witness for C8 (amended): a non-owner read of the base-world post is
denied with no store write. -/
theorem coordinator_nonowner_denied_witness :
    (GetItemContent baseWorld "bob" "p1" "post").err
        = some .permissionDenied ∧
    noStoreMutation baseWorld (GetItemContent baseWorld "bob" "p1"
        "post").world "post" "p1" baseMeta ∧
    storeWriteFree (GetItemContent baseWorld "bob" "p1" "post").trace :=
  (coordinator_nonowner_denied baseWorld 5 "bob" "p1" "post" baseMeta
    (by decide) (by decide) (by decide)).1

/-- Counterexample to C8 as stated: the denied call is not free of store
access — checking ownership reads the metadata store and warms the metadata
cache, so state is read and the cache mutates. -/
theorem coordinator_nonowner_access_counterexample :
    (GetItemContent baseWorld "bob" "p1" "post").err
        = some .permissionDenied ∧
    Eff.dbGetMeta ∈ (GetItemContent baseWorld "bob" "p1" "post").trace ∧
    ¬ (GetItemContent baseWorld "bob" "p1" "post").world.cache.itemMeta
        = baseWorld.cache.itemMeta := by
  decide

/-- C9: deleting an item whose metadata is not found (absent from the cache
and from the metadata store) succeeds vacuously: no error, the world exactly
unchanged, no store write, and in particular no blob delete, no history
append and no cache invalidation. -/
theorem deleteItem_missing_noop (w : World) (now : Int)
    (userID itemID itemTypeStr : String)
    (hvalid : itemTypeIsValid itemTypeStr = true)
    (hc : w.cache.getItemMeta itemTypeStr itemID = none)
    (hd : w.db.getMeta itemTypeStr itemID = none) :
    (DeleteItem w now userID itemID itemTypeStr).err = none ∧
    (DeleteItem w now userID itemID itemTypeStr).world = w ∧
    storeWriteFree (DeleteItem w now userID itemID itemTypeStr).trace ∧
    Eff.blobDelete ∉ (DeleteItem w now userID itemID itemTypeStr).trace := by
  have hvalid2 : (itemTypeStr == "post" || itemTypeStr == "codefile")
      = true := by
    unfold itemTypeIsValid at hvalid
    exact hvalid
  have heqM : getItemMetaWithCache w itemID itemTypeStr
      = (.error .itemNotFound, w, [.cacheGetMeta, .dbGetMeta]) := by
    unfold getItemMetaWithCache
    rw [hc, if_pos hvalid2, hd]
  unfold DeleteItem
  rw [if_neg (by simp [hvalid])]
  simp only [heqM]
  refine ⟨by simp, by simp, ?_, ?_⟩
  · intro e he
    simp at he
    rcases he with rfl | rfl <;> rfl
  · intro hmem
    simp at hmem

/-- Witness for C9: the concrete delete of the absent post succeeds without
touching anything. -/
theorem deleteItem_missing_noop_witness :
    (DeleteItem missingWorld 3 "alice" "p1" "post").err = none ∧
    (DeleteItem missingWorld 3 "alice" "p1" "post").world = missingWorld ∧
    storeWriteFree (DeleteItem missingWorld 3 "alice" "p1" "post").trace ∧
    Eff.blobDelete ∉ (DeleteItem missingWorld 3 "alice" "p1" "post").trace :=
  deleteItem_missing_noop missingWorld 3 "alice" "p1" "post" (by decide)
    (by decide) (by decide)

/-- C10: registration and login never return or cache a user record carrying
the stored password hash — a successful `RegisterUser` returns the record
with the hash cleared and caches nothing, and a successful `LoginUser`
returns the record with the hash cleared and writes exactly that cleared
record to the user cache. -/
theorem user_records_hash_cleared (w : World) (now : Int)
    (username password : String) :
    (∀ u, (RegisterUser w now username password).user = some u →
      u.passwordHash = "") ∧
    (RegisterUser w now username password).world.cache = w.cache ∧
    (∀ u, (LoginUser w username password).user = some u →
      u.passwordHash = "" ∧
      (LoginUser w username password).world.cache.users
        = insertA w.cache.users u.id u) ∧
    ((LoginUser w username password).user = none →
      (LoginUser w username password).world = w) := by
  refine ⟨?_, ?_, ?_, ?_⟩
  · intro u hu
    unfold RegisterUser at hu
    simp only [] at hu
    split at hu
    · simp at hu
    · simp at hu
      rw [← hu]
  · unfold RegisterUser
    simp only []
    cases hcu : w.db.createUser
        { id := username, username := username,
          passwordHash := hashPassword password, createdAt := now } <;>
      simp [hcu]
  · intro u hu
    unfold LoginUser at hu ⊢
    split at hu
    · simp at hu
    · rename_i user hlook
      split at hu
      · simp at hu
      · rename_i hpw
        simp at hu
        rw [if_neg hpw]
        constructor
        · rw [← hu]
        · rw [← hu]
  · intro hu
    unfold LoginUser at hu ⊢
    split at hu
    · rfl
    · rename_i user hlook
      split at hu
      · rename_i hpw
        rw [if_pos hpw]
      · simp at hu

/-- Witness for C10: registering carol and logging alice in on the concrete
user world yields hash-free records, and the login caches the cleared
record. -/
theorem user_records_hash_cleared_witness :
    ((RegisterUser userWorld 9 "carol" "s3cret").user.map
        (fun u => u.passwordHash)) = some "" ∧
    ((LoginUser userWorld "alice" "pw").user.map
        (fun u => u.passwordHash)) = some "" ∧
    (LoginUser userWorld "alice" "pw").world.cache.users
      = insertA userWorld.cache.users "alice"
          { id := "alice", username := "alice", passwordHash := "",
            createdAt := 0 } := by
  have hreg := (user_records_hash_cleared userWorld 9 "carol" "s3cret").1
  have hlog := (user_records_hash_cleared userWorld 0 "alice" "pw").2.2.1
  refine ⟨?_, ?_, ?_⟩
  · decide
  · decide
  · have h3 := hlog
      { id := "alice", username := "alice", passwordHash := "",
        createdAt := 0 } (by decide)
    exact h3.2

end BlogSystem
